import Mathlib

/-!
Verification of the gait_rag repository against its specification.

Python string-processing code is shallowly embedded over `List Char`,
so that every string primitive used by the source (split-on-substring,
strip, whitespace split, find/rfind, case folding) has Python's
semantics rather than Lean's.  Machine integers are modelled as
`Nat`/`Int`, floats as `ℚ`, fallible constructors as `Except`.
-/

set_option maxRecDepth 1000000

deriving instance DecidableEq for Except

namespace GaitRag

/-- Whitespace recognised by Python's `str.split()` / `str.strip()`
(ASCII subset; the texts this development evaluates contain no exotic
Unicode spaces, for which Python would also split). -/
def pyIsWs (c : Char) : Bool :=
  c = ' ' || c = '\t' || c = '\n' || c = '\r' || c = '\x0b' || c = '\x0c'

/-- Python `str.strip()`: drop whitespace from both ends. -/
def pyStrip (s : List Char) : List Char :=
  ((s.dropWhile pyIsWs).reverse.dropWhile pyIsWs).reverse

/-- Worker for `pyWords`: `cur` holds the (reversed) word being read. -/
def pyWordsGo (cur : List Char) : List Char → List (List Char)
  | [] => if cur.isEmpty then [] else [cur.reverse]
  | c :: t =>
    if pyIsWs c then
      if cur.isEmpty then pyWordsGo [] t else cur.reverse :: pyWordsGo [] t
    else
      pyWordsGo (c :: cur) t

/-- Python `str.split()` with no separator: split on whitespace runs,
discarding empty words. -/
def pyWords (s : List Char) : List (List Char) :=
  pyWordsGo [] s

/-- Worker for `pySplitOnSub`; `acc` holds the (reversed) current part.
Matches Python's leftmost, non-overlapping scan. -/
def splitGo (sep acc s : List Char) : List (List Char) :=
  if h : sep.isPrefixOf s ∧ sep ≠ [] then
    acc.reverse :: splitGo sep [] (s.drop sep.length)
  else
    match s with
    | [] => [acc.reverse]
    | c :: t => splitGo sep (c :: acc) t
termination_by s.length
decreasing_by
  · have hpre : sep <+: s := List.isPrefixOf_iff_prefix.mp h.1
    have hlen : sep.length ≤ s.length := hpre.length_le
    have hpos : 0 < sep.length := List.length_pos.mpr h.2
    simp only [List.length_drop]
    omega
  · simp

/-- Fuel-indexed version of `splitGo`; with fuel above the text length it
computes the same lists but by structural recursion, so that the kernel
can evaluate it on closed inputs. -/
def splitGoFuel : Nat → List Char → List Char → List Char → List (List Char)
  | 0, _, acc, s => [acc.reverse ++ s]
  | _ + 1, _, acc, [] => [acc.reverse]
  | fuel + 1, sep, acc, c :: t =>
    if sep.isPrefixOf (c :: t) ∧ sep ≠ [] then
      acc.reverse :: splitGoFuel fuel sep [] ((c :: t).drop sep.length)
    else
      splitGoFuel fuel sep (c :: acc) t

/-- Python `str.split(sep)` for a non-empty separator.  (Python raises
on an empty separator; the separators used by the source are literals.) -/
def pySplitOnSub (sep s : List Char) : List (List Char) :=
  splitGoFuel (s.length + 1) sep [] s

/-- Python's `sub in s` substring test. -/
def containsSub (sep : List Char) : List Char → Bool
  | [] => sep.isEmpty
  | c :: t => sep.isPrefixOf (c :: t) || containsSub sep t

/-- Python `sep.join(parts)`. -/
def joinSep (sep : List Char) : List (List Char) → List Char
  | [] => []
  | [x] => x
  | x :: y :: t => x ++ sep ++ joinSep sep (y :: t)

/-- Decimal digit character (the only radix the source prints). -/
def digitChar (n : Nat) : Char :=
  match n with
  | 0 => '0' | 1 => '1' | 2 => '2' | 3 => '3' | 4 => '4'
  | 5 => '5' | 6 => '6' | 7 => '7' | 8 => '8' | _ => '9'

/-- Decimal digits of a natural number, most significant first. -/
def natDigits (n : Nat) : List Char :=
  if n < 10 then [digitChar n] else natDigits (n / 10) ++ [digitChar (n % 10)]
termination_by n
decreasing_by
  exact Nat.div_lt_self (by omega) (by omega)

/-- Fuel-indexed version of `natDigits` (structural, kernel-evaluable). -/
def natDigitsF : Nat → Nat → List Char
  | 0, _ => []
  | fuel + 1, n =>
    if n < 10 then [digitChar n] else natDigitsF fuel (n / 10) ++ [digitChar (n % 10)]

/-- Decimal form of a natural number (executable wrapper). -/
def natStr (n : Nat) : List Char :=
  natDigitsF (n + 1) n

/-- Python `str(i)` for an `int`. -/
def pyIntStr (i : Int) : List Char :=
  if i < 0 then '-' :: natStr i.natAbs else natStr i.toNat

/-- Numeric value of an ASCII digit. -/
def digitVal? (c : Char) : Option Nat :=
  if '0' ≤ c ∧ c ≤ '9' then some (c.toNat - 48) else none

/-- Accumulating decimal parser over a digit list. -/
def parseDigits (acc : Nat) : List Char → Option Nat
  | [] => some acc
  | c :: t =>
    match digitVal? c with
    | some d => parseDigits (acc * 10 + d) t
    | none => none

/-- Worker for `pyIntParse`: Python `int()` body after stripping.
(Python additionally accepts underscore grouping and non-ASCII digits;
no caller produces those.) -/
def pyIntParseGo : List Char → Option Int
  | [] => none
  | c :: t =>
    if c = '-' then
      if t.isEmpty then none else (parseDigits 0 t).map (fun n => -(n : Int))
    else if c = '+' then
      if t.isEmpty then none else (parseDigits 0 t).map (fun n => (n : Int))
    else
      (parseDigits 0 (c :: t)).map (fun n => (n : Int))

/-- Python `int(s)` on decimal forms: strip whitespace, then an optional
sign followed by at least one ASCII digit. -/
def pyIntParse (s : List Char) : Option Int :=
  pyIntParseGo (pyStrip s)

/-! ### ChunkId value object (src/src/domain/value_objects.py, lines 26-47) -/

/-- The `ChunkId` dataclass: a paper id together with a chunk index. -/
structure ChunkId where
  paper_id : String
  chunk_index : Int
deriving DecidableEq

/-- The separator of the string form, `"::chunk_"`. -/
def chunkSep : List Char := "::chunk_".data

/-- `ChunkId.__post_init__` validation: Python raises `ValueError` when
the paper id is empty or the index is negative. -/
def ChunkId.make (paper_id : String) (chunk_index : Int) : Except String ChunkId :=
  if paper_id = "" then .error "Paper ID is required"
  else if chunk_index < 0 then .error "Chunk index must be non-negative"
  else .ok ⟨paper_id, chunk_index⟩

/-- `ChunkId.__str__`: the f-string `f"{paper_id}::chunk_{chunk_index}"`. -/
def ChunkId.render (c : ChunkId) : List Char :=
  c.paper_id.data ++ chunkSep ++ pyIntStr c.chunk_index

/-- `ChunkId.from_string`: split on `"::chunk_"`, demand exactly two
parts, convert the second with `int(...)`, then construct (running the
`__post_init__` validation). -/
def ChunkId.fromString (s : List Char) : Except String ChunkId :=
  match pySplitOnSub chunkSep s with
  | [a, b] =>
    match pyIntParse b with
    | some n => ChunkId.make (String.mk a) n
    | none => .error ("invalid literal for int() with base 10: " ++ String.mk b)
  | _ => .error ("Invalid chunk ID format: " ++ String.mk s)

/-! ### Lemmas about the Python split primitive -/

/-- A separator has no (non-trivial) border when no proper non-empty
prefix of it is also a suffix. -/
def NoBorder (sep : List Char) : Prop :=
  ∀ k, k < sep.length → 0 < k → sep.take k ≠ sep.drop (sep.length - k)

lemma splitGo_pos {sep : List Char} (acc s : List Char)
    (h : sep.isPrefixOf s ∧ sep ≠ []) :
    splitGo sep acc s = acc.reverse :: splitGo sep [] (s.drop sep.length) := by
  rw [splitGo, dif_pos h]

lemma splitGo_nil (sep acc : List Char) : splitGo sep acc [] = [acc.reverse] := by
  rw [splitGo]
  rw [dif_neg]
  rintro ⟨h1, h2⟩
  cases sep with
  | nil => exact h2 rfl
  | cons c t => simp [List.isPrefixOf] at h1

lemma splitGo_cons {sep : List Char} (acc : List Char) (c : Char) (t : List Char)
    (h : ¬ (sep.isPrefixOf (c :: t) ∧ sep ≠ [])) :
    splitGo sep acc (c :: t) = splitGo sep (c :: acc) t := by
  rw [splitGo, dif_neg h]

lemma splitGoFuel_eq (sep : List Char) :
    ∀ fuel s acc, s.length < fuel → splitGoFuel fuel sep acc s = splitGo sep acc s := by
  intro fuel
  induction fuel with
  | zero => intro s acc h; omega
  | succ f ih =>
    intro s acc h
    cases s with
    | nil => rw [splitGo_nil]; rfl
    | cons c t =>
      by_cases hc : sep.isPrefixOf (c :: t) ∧ sep ≠ []
      · rw [splitGo_pos acc (c :: t) hc]
        show (if sep.isPrefixOf (c :: t) ∧ sep ≠ [] then
            acc.reverse :: splitGoFuel f sep [] ((c :: t).drop sep.length)
          else splitGoFuel f sep (c :: acc) t) = _
        rw [if_pos hc]
        have h1 : 0 < sep.length := List.length_pos.mpr hc.2
        have h2 : sep.length ≤ (c :: t).length :=
          (List.isPrefixOf_iff_prefix.mp hc.1).length_le
        rw [ih ((c :: t).drop sep.length) [] (by simp at h ⊢; omega)]
      · rw [splitGo_cons acc c t hc]
        show (if sep.isPrefixOf (c :: t) ∧ sep ≠ [] then
            acc.reverse :: splitGoFuel f sep [] ((c :: t).drop sep.length)
          else splitGoFuel f sep (c :: acc) t) = _
        rw [if_neg hc]
        exact ih t (c :: acc) (by simp at h ⊢; omega)

lemma pySplitOnSub_eq_splitGo (sep s : List Char) :
    pySplitOnSub sep s = splitGo sep [] s := by
  unfold pySplitOnSub
  exact splitGoFuel_eq sep (s.length + 1) s [] (by omega)

lemma natDigitsF_eq : ∀ fuel n, n < fuel → natDigitsF fuel n = natDigits n := by
  intro fuel
  induction fuel with
  | zero => intro n h; omega
  | succ f ih =>
    intro n h
    rw [natDigits]
    show (if n < 10 then [digitChar n]
      else natDigitsF f (n / 10) ++ [digitChar (n % 10)]) = _
    by_cases h10 : n < 10
    · rw [if_pos h10, if_pos h10]
    · rw [if_neg h10, if_neg h10]
      rw [ih (n / 10) (by omega)]

lemma natStr_eq (n : Nat) : natStr n = natDigits n :=
  natDigitsF_eq (n + 1) n (by omega)

lemma containsSub_of_prefix {sep s : List Char} (h : sep.isPrefixOf s) :
    containsSub sep s = true := by
  cases s with
  | nil =>
    have : sep = [] := by
      have := List.isPrefixOf_iff_prefix.mp h
      simpa using List.prefix_nil.mp this
    simp [containsSub, this]
  | cons c t => simp [containsSub, h]

lemma containsSub_middle (sep y : List Char) :
    ∀ x, containsSub sep (x ++ sep ++ y) = true := by
  intro x
  induction x with
  | nil =>
    have h : sep.isPrefixOf (sep ++ y) :=
      List.isPrefixOf_iff_prefix.mpr (List.prefix_append sep y)
    simpa using containsSub_of_prefix h
  | cons c t ih =>
    have he : (c :: t) ++ sep ++ y = c :: (t ++ sep ++ y) := by simp
    rw [he]
    simp only [containsSub, Bool.or_eq_true]
    exact Or.inr ih

lemma no_span {sep : List Char} (hnb : NoBorder sep) {b d : List Char}
    (hb : b ≠ []) (hlt : b.length < sep.length)
    (h : sep.isPrefixOf (b ++ (sep ++ d))) : False := by
  have hpre : sep <+: b ++ (sep ++ d) := List.isPrefixOf_iff_prefix.mp h
  have h1 : sep = (b ++ (sep ++ d)).take sep.length := List.prefix_iff_eq_take.mp hpre
  rw [List.take_append_eq_append_take, List.take_of_length_le (le_of_lt hlt),
      List.take_append_eq_append_take] at h1
  have hk : sep.length - b.length ≤ sep.length := by omega
  rw [Nat.sub_eq_zero_of_le hk, List.take_zero, List.append_nil] at h1
  have h2 : sep.drop b.length = sep.take (sep.length - b.length) := by
    conv_lhs => rw [h1]
    rw [List.drop_append_eq_append_drop]
    simp
  have hbp : 0 < b.length := List.length_pos.mpr hb
  refine hnb (sep.length - b.length) (by omega) (by omega) ?_
  rw [← h2]
  congr 1
  omega

lemma prefix_of_append_of_le {sep p x : List Char} (hle : sep.length ≤ p.length)
    (h : sep.isPrefixOf (p ++ x)) : sep.isPrefixOf p := by
  have hpre : sep <+: p ++ x := List.isPrefixOf_iff_prefix.mp h
  have h1 : sep = (p ++ x).take sep.length := List.prefix_iff_eq_take.mp hpre
  rw [List.take_append_eq_append_take, Nat.sub_eq_zero_of_le hle,
      List.take_zero, List.append_nil] at h1
  exact List.isPrefixOf_iff_prefix.mpr (by rw [h1]; exact List.take_prefix _ _)

lemma splitGo_no_occ {sep : List Char} (hsep : sep ≠ []) :
    ∀ s acc, containsSub sep s = false → splitGo sep acc s = [acc.reverse ++ s] := by
  intro s
  induction s with
  | nil =>
    intro acc _
    simp [splitGo_nil]
  | cons c t ih =>
    intro acc hc
    simp only [containsSub, Bool.or_eq_false_iff] at hc
    rw [splitGo_cons acc c t (by simp [hc.1])]
    rw [ih (c :: acc) hc.2]
    simp

lemma splitGo_boundary {sep : List Char} (hnb : NoBorder sep) (hsep : sep ≠ [])
    (d : List Char) :
    ∀ p acc, containsSub sep p = false →
      splitGo sep acc (p ++ sep ++ d) = (acc.reverse ++ p) :: splitGo sep [] d := by
  intro p
  induction p with
  | nil =>
    intro acc _
    have hp : sep.isPrefixOf (sep ++ d) :=
      List.isPrefixOf_iff_prefix.mpr (List.prefix_append sep d)
    simp only [List.nil_append]
    rw [splitGo_pos acc (sep ++ d) ⟨hp, hsep⟩, List.drop_left]
    simp
  | cons c t ih =>
    intro acc hc
    simp only [containsSub, Bool.or_eq_false_iff] at hc
    have hnp : ¬ sep.isPrefixOf ((c :: t) ++ sep ++ d) := by
      intro h
      by_cases hle : sep.length ≤ (c :: t).length
      · have h2 := prefix_of_append_of_le hle (by simpa [List.append_assoc] using h)
        rw [hc.1] at h2
        exact Bool.noConfusion h2
      · exact no_span hnb (b := c :: t) (d := d) (by simp) (by omega)
          (by simpa [List.append_assoc] using h)
    have he : (c :: t) ++ sep ++ d = c :: (t ++ sep ++ d) := by simp
    rw [he]
    rw [splitGo_cons acc c (t ++ sep ++ d) (by rw [← he]; exact fun hcontra => hnp hcontra.1)]
    rw [ih (c :: acc) hc.2]
    simp

lemma splitGo_length_pos (sep : List Char) :
    ∀ s acc, 1 ≤ (splitGo sep acc s).length := by
  intro s
  induction s with
  | nil => intro acc; simp [splitGo_nil]
  | cons c t ih =>
    intro acc
    by_cases h : sep.isPrefixOf (c :: t) ∧ sep ≠ []
    · rw [splitGo_pos acc (c :: t) h]; simp
    · rw [splitGo_cons acc c t h]; exact ih (c :: acc)

lemma splitGo_length_two {sep : List Char} (hsep : sep ≠ []) :
    ∀ s acc, containsSub sep s = true → 2 ≤ (splitGo sep acc s).length := by
  intro s
  induction s with
  | nil =>
    intro acc h
    simp [containsSub, List.isEmpty_iff] at h
    exact absurd h hsep
  | cons c t ih =>
    intro acc h
    by_cases hp : sep.isPrefixOf (c :: t)
    · rw [splitGo_pos acc (c :: t) ⟨hp, hsep⟩]
      have := splitGo_length_pos sep (((c :: t).drop sep.length)) []
      simp only [List.length_cons]
      omega
    · rw [splitGo_cons acc c t (by simp [hp])]
      simp only [containsSub, Bool.or_eq_true] at h
      rcases h with h | h
      · exact absurd h hp
      · exact ih (c :: acc) h

lemma splitGo_three {sep : List Char} (hnb : NoBorder sep) (hsep : sep ≠ [])
    (d : List Char) :
    ∀ p acc, containsSub sep p = true →
      3 ≤ (splitGo sep acc (p ++ sep ++ d)).length := by
  intro p
  induction p with
  | nil =>
    intro acc h
    simp [containsSub, List.isEmpty_iff] at h
    exact absurd h hsep
  | cons c t ih =>
    intro acc h
    by_cases hp : sep.isPrefixOf ((c :: t) ++ sep ++ d)
    · rw [splitGo_pos acc ((c :: t) ++ sep ++ d) ⟨hp, hsep⟩]
      have hle : sep.length ≤ (c :: t).length := by
        by_contra hgt
        exact no_span hnb (b := c :: t) (d := d) (by simp) (by omega)
          (by simpa [List.append_assoc] using hp)
      have hdrop : ((c :: t) ++ sep ++ d).drop sep.length
          = ((c :: t).drop sep.length ++ sep ++ d) := by
        rw [List.append_assoc, List.drop_append_eq_append_drop,
            Nat.sub_eq_zero_of_le hle]
        simp [List.append_assoc]
      have h2 : 2 ≤ (splitGo sep [] (((c :: t) ++ sep ++ d).drop sep.length)).length := by
        rw [hdrop]
        exact splitGo_length_two hsep _ [] (containsSub_middle sep d _)
      simp only [List.length_cons]
      omega
    · have he : (c :: t) ++ sep ++ d = c :: (t ++ sep ++ d) := by simp
      rw [he]
      rw [splitGo_cons acc c (t ++ sep ++ d) (by rw [← he]; exact fun hcontra => hp hcontra.1)]
      simp only [containsSub, Bool.or_eq_true] at h
      rcases h with h | h
      · exact absurd (by simpa [List.append_assoc] using
          (List.isPrefixOf_iff_prefix.mpr
            ((List.isPrefixOf_iff_prefix.mp h).trans (List.prefix_append _ _)))) hp
      · exact ih (c :: acc) h

/-! ### Decimal printing and parsing lemmas -/

lemma chunkSep_noBorder : NoBorder chunkSep := by
  have h : ∀ k, k < 8 → 0 < k → chunkSep.take k ≠ chunkSep.drop (chunkSep.length - k) := by
    decide
  intro k hk hpos
  have h8 : chunkSep.length = 8 := by decide
  exact h k (by omega) hpos

lemma chunkSep_ne_nil : chunkSep ≠ [] := by decide

lemma natDigits_mem : ∀ n c, c ∈ natDigits n → ∃ d, d < 10 ∧ c = digitChar d := by
  intro n
  induction n using Nat.strong_induction_on with
  | _ n ih =>
    intro c hc
    rw [natDigits] at hc
    by_cases h : n < 10
    · rw [if_pos h] at hc
      exact ⟨n, h, by simpa using hc⟩
    · rw [if_neg h] at hc
      rcases List.mem_append.mp hc with h1 | h1
      · exact ih (n / 10) (Nat.div_lt_self (by omega) (by omega)) c h1
      · exact ⟨n % 10, Nat.mod_lt _ (by omega), by simpa using h1⟩

lemma natDigits_ne_nil (n : Nat) : natDigits n ≠ [] := by
  rw [natDigits]
  by_cases h : n < 10
  · rw [if_pos h]; simp
  · rw [if_neg h]; simp

lemma digitChar_not_ws : ∀ d, d < 10 → pyIsWs (digitChar d) = false := by decide

lemma digitChar_ne_colon : ∀ d, d < 10 → digitChar d ≠ ':' := by decide

lemma digitChar_ne_dash : ∀ d, d < 10 → digitChar d ≠ '-' := by decide

lemma digitChar_ne_plus : ∀ d, d < 10 → digitChar d ≠ '+' := by decide

lemma digitVal_digitChar : ∀ d, d < 10 → digitVal? (digitChar d) = some d := by decide

lemma dropWhile_of_none {p : Char → Bool} :
    ∀ l : List Char, (∀ c ∈ l, p c = false) → l.dropWhile p = l := by
  intro l h
  cases l with
  | nil => rfl
  | cons c t =>
    rw [List.dropWhile_cons, if_neg (by simp [h c (by simp)])]

lemma pyStrip_of_no_ws {l : List Char} (h : ∀ c ∈ l, pyIsWs c = false) :
    pyStrip l = l := by
  unfold pyStrip
  rw [dropWhile_of_none l h, dropWhile_of_none l.reverse (by simpa using h),
      List.reverse_reverse]

lemma pyStrip_natDigits (n : Nat) : pyStrip (natDigits n) = natDigits n := by
  refine pyStrip_of_no_ws (fun c hc => ?_)
  obtain ⟨d, hd, rfl⟩ := natDigits_mem n c hc
  exact digitChar_not_ws d hd

lemma containsSub_head {c₀ : Char} {sep' : List Char} :
    ∀ s, containsSub (c₀ :: sep') s = true → c₀ ∈ s := by
  intro s
  induction s with
  | nil => intro h; simp [containsSub] at h
  | cons c t ih =>
    intro h
    simp only [containsSub, Bool.or_eq_true] at h
    rcases h with h | h
    · simp only [List.isPrefixOf, Bool.and_eq_true, beq_iff_eq] at h
      simp [h.1]
    · exact List.mem_cons_of_mem _ (ih h)

lemma not_containsSub_chunkSep_natDigits (n : Nat) :
    containsSub chunkSep (natDigits n) = false := by
  by_contra h
  have h1 : containsSub chunkSep (natDigits n) = true := by
    cases hc : containsSub chunkSep (natDigits n) with
    | true => rfl
    | false => exact absurd hc h
  have h2 : chunkSep = ':' :: (":chunk_".data) := by decide
  rw [h2] at h1
  have hmem := containsSub_head _ h1
  obtain ⟨d, hd, hdc⟩ := natDigits_mem n ':' hmem
  exact digitChar_ne_colon d hd hdc.symm

lemma parseDigits_append :
    ∀ (as bs : List Char) (acc : Nat),
      parseDigits acc (as ++ bs) = (parseDigits acc as).bind (fun m => parseDigits m bs) := by
  intro as
  induction as with
  | nil => intro bs acc; simp [parseDigits]
  | cons c t ih =>
    intro bs acc
    simp only [List.cons_append, parseDigits]
    cases digitVal? c with
    | none => simp
    | some d => simp [ih]

lemma parseDigits_natDigits :
    ∀ n acc, parseDigits acc (natDigits n) = some (acc * 10 ^ (natDigits n).length + n) := by
  intro n
  induction n using Nat.strong_induction_on with
  | _ n ih =>
    intro acc
    rw [natDigits]
    by_cases h : n < 10
    · rw [if_pos h]
      simp [parseDigits, digitVal_digitChar n h]
    · rw [if_neg h]
      rw [parseDigits_append]
      rw [ih (n / 10) (Nat.div_lt_self (by omega) (by omega)) acc]
      have hstep : parseDigits (acc * 10 ^ (natDigits (n / 10)).length + n / 10)
          [digitChar (n % 10)]
          = some ((acc * 10 ^ (natDigits (n / 10)).length + n / 10) * 10 + n % 10) := by
        simp [parseDigits, digitVal_digitChar (n % 10) (Nat.mod_lt _ (by omega))]
      simp only [Option.some_bind, hstep]
      congr 1
      have hlen2 : (natDigits (n / 10) ++ [digitChar (n % 10)]).length
          = (natDigits (n / 10)).length + 1 := by simp
      rw [hlen2, pow_succ]
      have hmod : 10 * (n / 10) + n % 10 = n := Nat.div_add_mod n 10
      have hring : (acc * 10 ^ (natDigits (n / 10)).length + n / 10) * 10 + n % 10
          = acc * (10 ^ (natDigits (n / 10)).length * 10) + (10 * (n / 10) + n % 10) := by
        ring
      rw [hring, hmod]

lemma parseDigits_zero_natDigits (n : Nat) : parseDigits 0 (natDigits n) = some n := by
  rw [parseDigits_natDigits]
  simp

lemma pyIntParse_natDigits (n : Nat) : pyIntParse (natDigits n) = some (n : Int) := by
  obtain ⟨c, t, hct⟩ := List.exists_cons_of_ne_nil (natDigits_ne_nil n)
  have hcd : ∃ d, d < 10 ∧ c = digitChar d := natDigits_mem n c (by rw [hct]; simp)
  obtain ⟨d, hd, rfl⟩ := hcd
  unfold pyIntParse
  rw [pyStrip_natDigits, hct]
  rw [pyIntParseGo]
  rw [if_neg (digitChar_ne_dash d hd), if_neg (digitChar_ne_plus d hd)]
  rw [← hct, parseDigits_zero_natDigits]
  rfl

/-! ### ChunkId round-trip lemmas -/

lemma chunkId_split_render {p : String} {i : Int} (hi : 0 ≤ i)
    (hsub : containsSub chunkSep p.data = false) :
    pySplitOnSub chunkSep (ChunkId.render ⟨p, i⟩) = [p.data, natDigits i.toNat] := by
  have hrender : ChunkId.render ⟨p, i⟩ = p.data ++ chunkSep ++ natDigits i.toNat := by
    have h1 : ChunkId.render ⟨p, i⟩ = p.data ++ chunkSep ++ pyIntStr i := rfl
    rw [h1]
    unfold pyIntStr
    rw [if_neg (show ¬ (i < 0) by omega), natStr_eq]
  rw [hrender]
  rw [pySplitOnSub_eq_splitGo]
  rw [splitGo_boundary chunkSep_noBorder chunkSep_ne_nil (natDigits i.toNat) p.data [] hsub]
  rw [splitGo_no_occ chunkSep_ne_nil _ [] (not_containsSub_chunkSep_natDigits _)]
  simp

lemma chunkId_roundtrip {p : String} {i : Int} (hp : p ≠ "") (hi : 0 ≤ i)
    (hsub : containsSub chunkSep p.data = false) :
    ChunkId.fromString (ChunkId.render ⟨p, i⟩) = .ok ⟨p, i⟩ := by
  unfold ChunkId.fromString
  rw [chunkId_split_render hi hsub]
  show (match pyIntParse (natDigits i.toNat) with
    | some n => ChunkId.make (String.mk p.data) n
    | none => Except.error ("invalid literal for int() with base 10: "
        ++ String.mk (natDigits i.toNat))) = Except.ok ⟨p, i⟩
  rw [pyIntParse_natDigits]
  show ChunkId.make (String.mk p.data) (i.toNat : Int) = Except.ok ⟨p, i⟩
  unfold ChunkId.make
  have hps : String.mk p.data = p := rfl
  have hneg : ¬ ((i.toNat : Int) < 0) := by omega
  rw [hps, if_neg hp, if_neg hneg]
  rw [Int.toNat_of_nonneg hi]

lemma chunkId_render_reject {p : String} (i : Int)
    (hsub : containsSub chunkSep p.data = true) :
    ChunkId.fromString (ChunkId.render ⟨p, i⟩) =
      .error ("Invalid chunk ID format: " ++ String.mk (ChunkId.render ⟨p, i⟩)) := by
  have h3 : 3 ≤ (pySplitOnSub chunkSep (ChunkId.render ⟨p, i⟩)).length := by
    rw [pySplitOnSub_eq_splitGo]
    unfold ChunkId.render
    exact splitGo_three chunkSep_noBorder chunkSep_ne_nil _ p.data [] hsub
  unfold ChunkId.fromString
  obtain ⟨a, l1, hl⟩ := List.exists_cons_of_ne_nil
    (l := pySplitOnSub chunkSep (ChunkId.render ⟨p, i⟩))
    (by intro hnil; rw [hnil] at h3; simp at h3)
  rw [hl] at h3
  obtain ⟨b, l2, hl2⟩ := List.exists_cons_of_ne_nil (l := l1)
    (by intro hnil; rw [hnil] at h3; simp at h3)
  rw [hl2] at h3
  obtain ⟨e, l3, hl3⟩ := List.exists_cons_of_ne_nil (l := l2)
    (by intro hnil; rw [hnil] at h3; simp at h3)
  rw [hl, hl2, hl3]

/-! ### Claim C7 and C10 theorems -/

/-- C7, counterexample: the claim quantifies over every paper id, but a
constructible `ChunkId` whose paper id itself contains `"::chunk_"`
renders to a string that `from_string` rejects, so the round-trip of the
claim fails at `ChunkId("a::chunk_1", 0)`. -/
theorem c7_counterexample :
    ChunkId.make "a::chunk_1" 0 = .ok ⟨"a::chunk_1", 0⟩ ∧
    ChunkId.fromString (ChunkId.render ⟨"a::chunk_1", 0⟩) =
      .error "Invalid chunk ID format: a::chunk_1::chunk_0" := by
  decide

/-- C7, amended: a `ChunkId` with paper id `p` and index `i` renders as
`p::chunk_i`; parsing the rendered string yields the same paper id and
index for every constructible ChunkId whose paper id does not contain
the substring `"::chunk_"`; construction rejects an empty paper id and
a negative index; and parsing `"paper1_invalid"` fails with a format
error. -/
theorem c7_amended :
    (∀ (p : String) (i : Int),
        String.mk (ChunkId.render ⟨p, i⟩) = p ++ "::chunk_" ++ String.mk (pyIntStr i)) ∧
    (∀ (p : String) (i : Int), p ≠ "" → 0 ≤ i →
        containsSub chunkSep p.data = false →
        ChunkId.fromString (ChunkId.render ⟨p, i⟩) = .ok ⟨p, i⟩) ∧
    (∀ i : Int, ChunkId.make "" i = .error "Paper ID is required") ∧
    (∀ (p : String) (i : Int), p ≠ "" → i < 0 →
        ChunkId.make p i = .error "Chunk index must be non-negative") ∧
    ChunkId.fromString "paper1_invalid".data =
      .error "Invalid chunk ID format: paper1_invalid" := by
  refine ⟨fun p i => rfl,
    fun p i hp hi hsub => chunkId_roundtrip hp hi hsub,
    fun i => by unfold ChunkId.make; rw [if_pos rfl],
    fun p i hp hi => by unfold ChunkId.make; rw [if_neg hp, if_pos hi],
    by decide⟩

/-- C7, witness for the amended theorem at concrete inputs. -/
theorem c7_witness :
    ChunkId.fromString (ChunkId.render ⟨"paper2", 3⟩) = .ok ⟨"paper2", 3⟩ ∧
    ChunkId.make "paper2" (-1) = .error "Chunk index must be non-negative" :=
  ⟨c7_amended.2.1 "paper2" 3 (by decide) (by decide) (by decide),
   c7_amended.2.2.2.1 "paper2" (-1) (by decide) (by decide)⟩

/-- C10: the ChunkId round-trip holds exactly when the paper id avoids
the substring `"::chunk_"`: every constructible ChunkId whose paper id
lacks it parses back from its rendered string; construction accepts
`"a::chunk_1"` (only emptiness is checked); its rendered string splits
into more than two parts; and for any paper id containing the substring
the rendered string is rejected with an invalid-format error. -/
theorem c10_roundtrip_iff :
    (∀ (p : String) (i : Int), p ≠ "" → 0 ≤ i →
        containsSub chunkSep p.data = false →
        ChunkId.fromString (ChunkId.render ⟨p, i⟩) = .ok ⟨p, i⟩) ∧
    ChunkId.make "a::chunk_1" 1 = .ok ⟨"a::chunk_1", 1⟩ ∧
    3 ≤ (pySplitOnSub chunkSep (ChunkId.render ⟨"a::chunk_1", 1⟩)).length ∧
    (∀ (p : String) (i : Int), containsSub chunkSep p.data = true →
        ChunkId.fromString (ChunkId.render ⟨p, i⟩) =
          .error ("Invalid chunk ID format: " ++ String.mk (ChunkId.render ⟨p, i⟩))) := by
  refine ⟨fun p i hp hi hsub => chunkId_roundtrip hp hi hsub,
    by decide, by decide,
    fun p i hsub => chunkId_render_reject i hsub⟩

/-- C10, witness at concrete inputs. -/
theorem c10_witness :
    ChunkId.fromString (ChunkId.render ⟨"paper1", 5⟩) = .ok ⟨"paper1", 5⟩ ∧
    ChunkId.fromString (ChunkId.render ⟨"a::chunk_1", 7⟩) =
      .error ("Invalid chunk ID format: " ++ String.mk (ChunkId.render ⟨"a::chunk_1", 7⟩)) :=
  ⟨c10_roundtrip_iff.1 "paper1" 5 (by decide) (by decide) (by decide),
   c10_roundtrip_iff.2.2.2 "a::chunk_1" 7 (by decide)⟩

/-! ### Text chunking (src/src/infrastructure/document_processor.py,
`PDFDocumentProcessor._chunk_text`, lines 295-308) -/

/-- The `for i in range(0, len(words), step)` loop of `_chunk_text`:
slice `words[i:i+chunk_size]`, join with spaces, append when non-empty.
Fuel-indexed (one unit per iteration) so the kernel can evaluate it;
`chunkText` supplies enough fuel for the whole range. -/
def chunkLoop : Nat → List (List Char) → Nat → Nat → Nat → List (List Char)
  | 0, _, _, _, _ => []
  | fuel + 1, words, chunkSize, step, i =>
    if i < words.length then
      if ((words.drop i).take chunkSize).isEmpty then
        chunkLoop fuel words chunkSize step (i + step)
      else
        joinSep [' '] ((words.drop i).take chunkSize)
          :: chunkLoop fuel words chunkSize step (i + step)
    else []

/-- `_chunk_text(text, chunk_size, overlap)`: split on whitespace, then
walk the words with stride `step = max(1, chunk_size - overlap)`.
Sizes are modelled as `Nat`; Python's `max(1, chunk_size - overlap)`
agrees with `max 1 (chunkSize - overlap)` under truncated subtraction. -/
def chunkText (text : List Char) (chunkSize overlap : Nat) : List (List Char) :=
  chunkLoop ((pyWords text).length + 1) (pyWords text) chunkSize
    (max 1 (chunkSize - overlap)) 0

/-- Spec-side offsets: the consecutive multiples of `step` below the word
count (`0, step, 2*step, ...`), as stated in the specification. -/
def chunkOffsets (wordCount step : Nat) : List Nat :=
  List.range' 0 ((wordCount + step - 1) / step) step

/-- Spec-side chunk content: the space-joined slice of at most
`chunkSize` words starting at offset `o`. -/
def chunkAt (words : List (List Char)) (chunkSize o : Nat) : List Char :=
  joinSep [' '] ((words.drop o).take chunkSize)

lemma ceil_div_step {a step : Nat} (hstep : 0 < step) (ha : 0 < a) :
    (a + step - 1) / step = ((a - step) + step - 1) / step + 1 := by
  have h1 : a + step - 1 = (a - 1) + step := by omega
  rw [h1, Nat.add_div_right _ hstep]
  rcases le_or_lt a step with hle | hlt
  · have h0 : a - step = 0 := by omega
    rw [h0]
    have h2 : (0 + step - 1) / step = 0 := Nat.div_eq_of_lt (by omega)
    have h3 : (a - 1) / step = 0 := Nat.div_eq_of_lt (by omega)
    rw [h2, h3]
  · have h2 : (a - step) + step - 1 = (a - step - 1) + step := by omega
    have h3 : a - 1 = (a - step - 1) + step := by omega
    rw [h2, h3, Nat.add_div_right _ hstep]

lemma chunkLoop_eq (words : List (List Char)) (size step : Nat) (hstep : 0 < step) :
    ∀ fuel i, words.length - i < fuel →
      chunkLoop fuel words size step i
        = (List.range' i ((words.length - i + step - 1) / step) step).filterMap
            (fun o => if ((words.drop o).take size).isEmpty then none
                      else some (chunkAt words size o)) := by
  intro fuel
  induction fuel with
  | zero => intro i h; omega
  | succ f ih =>
    intro i h
    by_cases hi : i < words.length
    · have hn : (words.length - i + step - 1) / step
          = ((words.length - (i + step)) + step - 1) / step + 1 := by
        have := ceil_div_step (a := words.length - i) hstep (by omega)
        have he : words.length - i - step = words.length - (i + step) := by omega
        rw [he] at this
        exact this
      rw [hn, List.range'_succ, List.filterMap_cons]
      show (if i < words.length then
          if ((words.drop i).take size).isEmpty then
            chunkLoop f words size step (i + step)
          else chunkAt words size i :: chunkLoop f words size step (i + step)
        else []) = _
      rw [if_pos hi]
      rw [ih (i + step) (by omega)]
      by_cases hcw : ((words.drop i).take size).isEmpty
      · rw [if_pos hcw, if_pos hcw]
      · rw [if_neg hcw, if_neg hcw]
    · have h0 : words.length - i = 0 := by omega
      have hz : (words.length - i + step - 1) / step = 0 := by
        rw [h0]; exact Nat.div_eq_of_lt (by omega)
      rw [hz]
      show (if i < words.length then
          if ((words.drop i).take size).isEmpty then
            chunkLoop f words size step (i + step)
          else chunkAt words size i :: chunkLoop f words size step (i + step)
        else []) = _
      rw [if_neg hi]
      rfl

lemma filterMap_eq_map_of_none {α β : Type} (p : α → Bool) (g : α → β) :
    ∀ l : List α, (∀ a ∈ l, p a = false) →
      l.filterMap (fun a => if p a then none else some (g a)) = l.map g := by
  intro l
  induction l with
  | nil => intro _; rfl
  | cons a t ih =>
    intro h
    rw [List.filterMap_cons, if_neg (by simp [h a (by simp)]), List.map_cons,
        ih (fun b hb => h b (by simp [hb]))]

lemma chunkOffsets_lt {wordCount step : Nat} (hstep : 0 < step) :
    ∀ o ∈ chunkOffsets wordCount step, o < wordCount := by
  intro o ho
  unfold chunkOffsets at ho
  obtain ⟨k, hk, rfl⟩ := List.mem_range'.mp ho
  have h1 : step * k + step ≤ step * ((wordCount + step - 1) / step) := by
    have : k + 1 ≤ (wordCount + step - 1) / step := hk
    calc step * k + step = step * (k + 1) := by ring
    _ ≤ step * ((wordCount + step - 1) / step) := Nat.mul_le_mul_left step this
  have h2 : step * ((wordCount + step - 1) / step) ≤ wordCount + step - 1 :=
    Nat.mul_div_le _ _
  omega

lemma chunkText_eq (text : List Char) (size ov : Nat) :
    chunkText text size ov
      = (chunkOffsets (pyWords text).length (max 1 (size - ov))).filterMap
          (fun o => if (((pyWords text).drop o).take size).isEmpty then none
                    else some (chunkAt (pyWords text) size o)) := by
  unfold chunkText chunkOffsets
  rw [chunkLoop_eq (pyWords text) size (max 1 (size - ov)) (by omega)
      ((pyWords text).length + 1) 0 (by omega)]
  rw [Nat.sub_zero]

lemma chunkText_eq_map (text : List Char) (size ov : Nat) (hs : 0 < size) :
    chunkText text size ov
      = (chunkOffsets (pyWords text).length (max 1 (size - ov))).map
          (chunkAt (pyWords text) size) := by
  rw [chunkText_eq]
  refine filterMap_eq_map_of_none
    (fun o => (((pyWords text).drop o).take size).isEmpty)
    (chunkAt (pyWords text) size) _ (fun o ho => ?_)
  have hlt : o < (pyWords text).length := chunkOffsets_lt (by omega) o ho
  have hne : ((pyWords text).drop o) ≠ [] := by
    intro hnil
    have := List.length_drop o (pyWords text)
    rw [hnil] at this
    simp at this
    omega
  obtain ⟨w, rest, hw⟩ := List.exists_cons_of_ne_nil hne
  show (((pyWords text).drop o).take size).isEmpty = false
  rw [hw]
  cases size with
  | zero => omega
  | succ m => simp [List.take_cons]

lemma joinSep_append (sep : List Char) :
    ∀ a b : List (List Char), a ≠ [] → b ≠ [] →
      joinSep sep (a ++ b) = joinSep sep a ++ sep ++ joinSep sep b := by
  intro a
  induction a with
  | nil => intro b h _; exact absurd rfl h
  | cons x a' ih =>
    intro b _ hb
    cases a' with
    | nil =>
      obtain ⟨y, t, rfl⟩ := List.exists_cons_of_ne_nil hb
      simp [joinSep]
    | cons z t =>
      have h1 : (x :: z :: t) ++ b = x :: ((z :: t) ++ b) := by simp
      rw [h1]
      have h2 : (z :: t) ++ b = z :: (t ++ b) := by simp
      show x ++ sep ++ joinSep sep ((z :: t) ++ b) = _
      rw [ih b (by simp) hb]
      simp [joinSep, List.append_assoc]

lemma joinSep_drop_suffix (words : List (List Char)) (o : Nat)
    (ho1 : 0 < o) (ho2 : o < words.length) :
    ∃ pre, joinSep [' '] words = pre ++ joinSep [' '] (words.drop o) := by
  have htd := List.take_append_drop o words
  have h1 : words.take o ≠ [] := by
    intro h
    have hlen := congrArg List.length h
    rw [List.length_take] at hlen
    simp only [List.length_nil] at hlen
    omega
  have h2 : words.drop o ≠ [] := by
    intro h
    have hlen := congrArg List.length h
    rw [List.length_drop] at hlen
    simp only [List.length_nil] at hlen
    omega
  refine ⟨joinSep [' '] (words.take o) ++ [' '], ?_⟩
  conv_lhs => rw [← htd]
  rw [joinSep_append [' '] _ _ h1 h2]

/-- The 1,000 identical one-letter words of the specification's worked
chunking example. -/
def chunkExampleWords : List (List Char) :=
  List.replicate 1000 ['a']

/-- A 1,000-word text: the example words joined by single spaces. -/
def chunkExampleText : List Char :=
  joinSep [' '] chunkExampleWords

/-! ### Claim C3 and C9 theorems -/

/-- C3: `_chunk_text` splits the text on whitespace and emits, at each
start offset in the list of consecutive multiples of
`step = max(1, chunk_size - overlap)` below the word count, the
space-joined slice of at most `chunk_size` words at that offset (the
degenerate `chunk_size = 0` emits nothing, hence the filterMap form; any
positive chunk size emits exactly one chunk per offset); in particular a
1,000-word text with chunk size 500 and overlap 100 yields exactly the
three chunks at offsets 0, 400 and 800, the last holding only 200
words. -/
theorem c3_chunking :
    (∀ (text : List Char) (size ov : Nat),
        chunkText text size ov
          = (chunkOffsets (pyWords text).length (max 1 (size - ov))).filterMap
              (fun o => if (((pyWords text).drop o).take size).isEmpty then none
                        else some (chunkAt (pyWords text) size o))) ∧
    (∀ (text : List Char) (size ov : Nat), 0 < size →
        chunkText text size ov
          = (chunkOffsets (pyWords text).length (max 1 (size - ov))).map
              (chunkAt (pyWords text) size)) ∧
    chunkOffsets 1000 (max 1 (500 - 100)) = [0, 400, 800] ∧
    chunkText chunkExampleText 500 100
      = [chunkAt chunkExampleWords 500 0, chunkAt chunkExampleWords 500 400,
         chunkAt chunkExampleWords 500 800] ∧
    (chunkText chunkExampleText 500 100).length = 3 ∧
    ((chunkExampleWords.drop 800).take 500).length = 200 := by
  refine ⟨chunkText_eq, chunkText_eq_map, by decide, by decide, by decide, by decide⟩

/-- C3, witness: the map characterization applied to the 1,000-word
example, discharging the positive-chunk-size hypothesis. -/
theorem c3_witness :
    chunkText chunkExampleText 500 100
      = (chunkOffsets (pyWords chunkExampleText).length (max 1 (500 - 100))).map
          (chunkAt (pyWords chunkExampleText) 500) :=
  c3_chunking.2.1 chunkExampleText 500 100 (by decide)

/-- C9: when the word count is at most `chunk_size` but exceeds the
step, `_chunk_text` emits more than one chunk although the first chunk
already holds the whole text: every later chunk is the space-joined tail
of the words from a positive multiple of the step, and its content is a
suffix of the first chunk's content. -/
theorem c9_contained_chunks :
    ∀ (text : List Char) (size ov : Nat),
      (pyWords text).length ≤ size →
      max 1 (size - ov) < (pyWords text).length →
      2 ≤ (chunkText text size ov).length ∧
      (chunkText text size ov).head? = some (joinSep [' '] (pyWords text)) ∧
      ∀ c ∈ (chunkText text size ov).tail,
        ∃ k, 0 < k ∧ c = joinSep [' '] ((pyWords text).drop (k * max 1 (size - ov))) ∧
          ∃ pre, joinSep [' '] (pyWords text) = pre ++ c := by
  intro text size ov h1 h2
  have hsize : 0 < size := by
    have : 1 ≤ max 1 (size - ov) := by omega
    omega
  rw [chunkText_eq_map text size ov hsize]
  set words := pyWords text with hwords
  set step := max 1 (size - ov) with hstep
  have hstep1 : 0 < step := by omega
  have hn2 : 2 ≤ (words.length + step - 1) / step := by
    rw [Nat.le_div_iff_mul_le hstep1]
    omega
  obtain ⟨m, hm⟩ : ∃ m, (words.length + step - 1) / step = m + 2 :=
    ⟨(words.length + step - 1) / step - 2, by omega⟩
  have hoffs : chunkOffsets words.length step
      = 0 :: List.range' step (m + 1) step := by
    unfold chunkOffsets
    rw [hm, List.range'_succ]
    simp
  refine ⟨?_, ?_, ?_⟩
  · rw [hoffs]
    simp
  · rw [hoffs]
    simp only [List.map_cons, List.head?_cons]
    congr 1
    unfold chunkAt
    rw [List.drop_zero, List.take_of_length_le h1]
  · intro c hc
    rw [hoffs, List.map_cons, List.tail_cons] at hc
    obtain ⟨o, ho, rfl⟩ := List.mem_map.mp hc
    obtain ⟨j, hj, rfl⟩ := List.mem_range'.mp ho
    have holt : step + step * j < words.length := by
      have hmem : (step + step * j) ∈ chunkOffsets words.length step := by
        rw [hoffs]
        simp only [List.mem_cons]
        exact Or.inr (List.mem_range'.mpr ⟨j, hj, rfl⟩)
      exact chunkOffsets_lt hstep1 _ hmem
    refine ⟨j + 1, by omega, ?_, ?_⟩
    · unfold chunkAt
      have he : (j + 1) * step = step + step * j := by ring
      rw [he]
      congr 1
      refine List.take_of_length_le ?_
      rw [List.length_drop]
      omega
    · have hsuf := joinSep_drop_suffix words (step + step * j) (by omega) holt
      obtain ⟨pre, hpre⟩ := hsuf
      refine ⟨pre, ?_⟩
      rw [hpre]
      congr 2
      rw [List.take_of_length_le (by rw [List.length_drop]; omega)]

/-- C9, witness: 450 one-letter words with the default chunk size 500
and overlap 100 (step 400), discharging both hypotheses. -/
theorem c9_witness :
    2 ≤ (chunkText (joinSep [' '] (List.replicate 450 ['a'])) 500 100).length ∧
    (chunkText (joinSep [' '] (List.replicate 450 ['a'])) 500 100).head?
      = some (joinSep [' '] (pyWords (joinSep [' '] (List.replicate 450 ['a'])))) ∧
    ∀ c ∈ (chunkText (joinSep [' '] (List.replicate 450 ['a'])) 500 100).tail,
      ∃ k, 0 < k ∧
        c = joinSep [' ']
          ((pyWords (joinSep [' '] (List.replicate 450 ['a']))).drop (k * max 1 (500 - 100))) ∧
        ∃ pre, joinSep [' '] (pyWords (joinSep [' '] (List.replicate 450 ['a']))) = pre ++ c :=
  c9_contained_chunks (joinSep [' '] (List.replicate 450 ['a'])) 500 100
    (by decide) (by decide)

/-! ### Domain entities (src/src/domain/entities.py) -/

/-- `DocumentType` enumeration. -/
inductive DocumentType | text | table | figure | mixed
deriving DecidableEq

/-- The `.value` string of each `DocumentType` member. -/
def DocumentType.value : DocumentType → String
  | .text => "text" | .table => "table" | .figure => "figure" | .mixed => "mixed"

/-- `DiseaseCategory` enumeration. -/
inductive DiseaseCategory | stroke | parkinson | arthritis | scoliosis | other
deriving DecidableEq

/-- `GaitParameter` dataclass (floats modelled as `ℚ`). -/
structure GaitParameter where
  name : String
  value : ℚ
  unit : Option String
  mean : Option ℚ
  std : Option ℚ
  confidence : Option ℚ
deriving DecidableEq

/-- `SearchQuery` dataclass. -/
structure SearchQuery where
  query_text : String
  limit : Nat
  document_types : Option (List DocumentType)
  disease_categories : Option (List DiseaseCategory)
  require_gait_params : Bool
  paper_ids : Option (List String)
  min_score : ℚ
deriving DecidableEq

/-- `DocumentChunk` dataclass as reconstructed by the vector store's
search (its free-form metadata dict is modelled as an association list;
the reconstruction copies exactly the keys outside the named ones, which
the model keeps in `extra`). -/
structure DocumentChunk where
  chunk_id : String
  document_id : String
  content : String
  page_number : Int
  chunk_index : Int
  chunk_type : DocumentType
  metadata : List (String × String)
  gait_parameters : List GaitParameter
  embedding : Option (List ℚ)
deriving DecidableEq

/-- `SearchResult` dataclass (`document_metadata` holds only the
`document_id` key at this call site, modelled directly). -/
structure SearchResult where
  chunk : DocumentChunk
  score : ℚ
  document_metadata_id : String
deriving DecidableEq

/-! ### ChromaDB vector store (src/src/infrastructure/vector_store.py) -/

/-- A raw nearest-neighbour hit as returned by `collection.query`:
parallel entries of `ids`, `documents`, `metadatas` and `distances`. -/
structure ChunkMeta where
  document_id : String
  page_number : Int
  chunk_index : Int
  chunk_type : DocumentType
  has_gait_params : Bool
  extra : List (String × String)
  gait_params : Option (List GaitParameter)
deriving DecidableEq

/-- One row of the native query result. -/
structure RawHit where
  id : String
  document : String
  metadata : ChunkMeta
  distance : ℚ
deriving DecidableEq

/-- One condition of the native `where` filter built by `search`. -/
inductive WhereCond
  | chunkTypeIn (types : List String)
  | hasGaitParamsEq (b : Bool)
  | documentIdIn (ids : List String)
deriving DecidableEq

/-- The combined `where` clause: a single condition, or an `$and` of
several. -/
inductive WhereExpr
  | single (c : WhereCond)
  | and (cs : List WhereCond)
deriving DecidableEq

/-- Python truthiness of an optional list (`if query.document_types:`). -/
def optListTruthy {α : Type} : Option (List α) → Bool
  | none => false
  | some l => !l.isEmpty

/-- The `where_conditions` list built by `ChromaVectorStore.search`
(lines 151-169). -/
def buildWhereConditions (q : SearchQuery) : List WhereCond :=
  (if optListTruthy q.document_types then
    [WhereCond.chunkTypeIn ((q.document_types.getD []).map DocumentType.value)]
  else []) ++
  (if q.require_gait_params then [WhereCond.hasGaitParamsEq true] else []) ++
  (if optListTruthy q.paper_ids then
    [WhereCond.documentIdIn (q.paper_ids.getD [])] else [])

/-- The combination step (lines 171-175) plus the `where if where else
None` argument passed to `collection.query`. -/
def buildWhere (q : SearchQuery) : Option WhereExpr :=
  match buildWhereConditions q with
  | [] => none
  | [c] => some (.single c)
  | cs => some (.and cs)

/-- Distance-to-similarity transform of line 191:
`score = 1.0 / (1.0 + distance)`. -/
def searchScore (distance : ℚ) : ℚ :=
  1 / (1 + distance)

/-- Chunk reconstruction from one hit (lines 197-221): the metadata dict
minus the named keys becomes the chunk metadata, gait parameters are
attached when present, and the embedding is not restored. -/
def mkSearchChunk (h : RawHit) : DocumentChunk where
  chunk_id := h.id
  document_id := h.metadata.document_id
  content := h.document
  page_number := h.metadata.page_number
  chunk_index := h.metadata.chunk_index
  chunk_type := h.metadata.chunk_type
  metadata := h.metadata.extra
  gait_parameters := (h.metadata.gait_params).getD []
  embedding := none

/-- The result loop of `search` (lines 186-229): compute the score from
the distance, skip the hit when the score is below `min_score`,
otherwise emit the reconstructed result. -/
def searchPost (minScore : ℚ) : List RawHit → List SearchResult
  | [] => []
  | h :: t =>
    if searchScore h.distance < minScore then
      searchPost minScore t
    else
      { chunk := mkSearchChunk h, score := searchScore h.distance,
        document_metadata_id := h.metadata.document_id } :: searchPost minScore t

/-- `ChromaVectorStore.search` given the rows the native query returned:
the native call receives the built `where` clause and `query.limit`; the
minimum-score filter runs afterwards in the loop. -/
def chromaSearch (q : SearchQuery) (hits : List RawHit) :
    Option WhereExpr × Nat × List SearchResult :=
  (buildWhere q, q.limit, searchPost q.min_score hits)

/-- A stored row of the collection, as relevant to deletion. -/
structure StoredChunk where
  id : String
  document_id : String
  document : String
deriving DecidableEq

/-- `collection.get(where={"document_id": d})["ids"]`. -/
def getIdsByDoc (store : List StoredChunk) (d : String) : List String :=
  (store.filter (fun c => c.document_id = d)).map (fun c => c.id)

/-- `collection.delete(ids=...)`. -/
def deleteIds (store : List StoredChunk) (ids : List String) : List StoredChunk :=
  store.filter (fun c => !ids.contains c.id)

/-- `ChromaVectorStore.delete_by_document` (lines 233-244): fetch the
matching ids; when non-empty delete them and return their count,
otherwise return 0.  Returns the new store and the count. -/
def deleteByDocument (store : List StoredChunk) (document_id : String) :
    List StoredChunk × Nat :=
  let ids := getIdsByDoc store document_id
  if ids ≠ [] then (deleteIds store ids, ids.length) else (store, 0)

/-- `DeleteDocumentUseCase.execute`
(src/src/application/use_cases.py, lines 304-314): reports whether any
chunk was removed. -/
def deleteDocumentUseCase (store : List StoredChunk) (document_id : String) :
    List StoredChunk × Bool :=
  let r := deleteByDocument store document_id
  (r.1, decide (r.2 > 0))

/-- An HTTP error response raised via `HTTPException`. -/
structure HttpError where
  status : Nat
  detail : String
deriving DecidableEq

/-- Body of the DELETE `/documents/{document_id}` response. -/
structure DeleteResponse where
  message : String
  deleted_count : Option Nat
deriving DecidableEq

/-- The `delete_document` route
(src/src/presentation/routes.py, lines 399-422), given the already
URL-decoded document id: a success body either way; the 500 branch fires
only on exceptions, which the modelled operations never raise. -/
def deleteDocumentRoute (store : List StoredChunk) (document_id : String) :
    Except HttpError (List StoredChunk × DeleteResponse) :=
  let r := deleteDocumentUseCase store document_id
  if r.2 then
    .ok (r.1, ⟨"Document " ++ document_id ++ " deleted successfully", none⟩)
  else
    .ok (r.1, ⟨"Document " ++ document_id ++ " not found or already deleted", some 0⟩)

/-! ### Claim C2 and C8 theorems -/

/-- C2: every search result's similarity score is `1 / (1 + distance)`
(so distance 0 ↦ 1, 1 ↦ 1/2, 3 ↦ 1/4); the returned list is exactly the
reconstruction of the native hits whose score reaches `min_score`
(filtered after the nearest-neighbour query); and the native `where`
clause does not depend on `min_score` at all. -/
theorem c2_search_scores :
    (∀ d : ℚ, searchScore d = 1 / (1 + d)) ∧
    searchScore 0 = 1 ∧ searchScore 1 = 1/2 ∧ searchScore 3 = 1/4 ∧
    (∀ (ms : ℚ) (hits : List RawHit),
        searchPost ms hits
          = (hits.filter (fun h => ms ≤ searchScore h.distance)).map
              (fun h => { chunk := mkSearchChunk h, score := searchScore h.distance,
                          document_metadata_id := h.metadata.document_id })) ∧
    (∀ (q : SearchQuery) (ms : ℚ),
        buildWhere { q with min_score := ms } = buildWhere q) ∧
    (∀ (q : SearchQuery) (hits : List RawHit),
        chromaSearch q hits = (buildWhere q, q.limit, searchPost q.min_score hits)) := by
  refine ⟨fun d => rfl, by norm_num [searchScore], by norm_num [searchScore],
    by norm_num [searchScore], ?_, fun q ms => rfl, fun q hits => rfl⟩
  intro ms hits
  induction hits with
  | nil => rfl
  | cons h t ih =>
    show (if searchScore h.distance < ms then searchPost ms t
      else _ :: searchPost ms t) = _
    rw [List.filter_cons]
    by_cases hlt : searchScore h.distance < ms
    · rw [if_pos hlt, ih]
      have : (decide (ms ≤ searchScore h.distance)) = false := by
        simp [not_le.mpr hlt]
      rw [this]
      simp
    · rw [if_neg hlt, ih]
      have : (decide (ms ≤ searchScore h.distance)) = true := by
        simp [not_lt.mp hlt]
      rw [this]
      simp

/-- C8: deleting a document with zero matching stored chunks is
idempotent at every layer: the vector store returns count 0 without
raising, the use case reports `false`, and the route answers with the
"not found or already deleted" success body carrying `deleted_count`
0 instead of an error. -/
theorem c8_idempotent_delete :
    ∀ (store : List StoredChunk) (d : String),
      store.filter (fun c => c.document_id = d) = [] →
      deleteByDocument store d = (store, 0) ∧
      deleteDocumentUseCase store d = (store, false) ∧
      deleteDocumentRoute store d
        = .ok (store, ⟨"Document " ++ d ++ " not found or already deleted", some 0⟩) := by
  intro store d hempty
  have hids : getIdsByDoc store d = [] := by
    unfold getIdsByDoc
    rw [hempty]
    rfl
  have h1 : deleteByDocument store d = (store, 0) := by
    unfold deleteByDocument
    rw [hids]
    rfl
  have h2 : deleteDocumentUseCase store d = (store, false) := by
    unfold deleteDocumentUseCase
    rw [h1]
    rfl
  refine ⟨h1, h2, ?_⟩
  unfold deleteDocumentRoute
  rw [h2]
  rfl

/-- C8, witness: a store holding one chunk of document `p1`, asked to
delete the absent document `p2`. -/
theorem c8_witness :
    deleteByDocument [⟨"p1::chunk_0", "p1", "x"⟩] "p2" = ([⟨"p1::chunk_0", "p1", "x"⟩], 0) ∧
    deleteDocumentUseCase [⟨"p1::chunk_0", "p1", "x"⟩] "p2" = ([⟨"p1::chunk_0", "p1", "x"⟩], false) ∧
    deleteDocumentRoute [⟨"p1::chunk_0", "p1", "x"⟩] "p2"
      = .ok ([⟨"p1::chunk_0", "p1", "x"⟩],
          ⟨"Document " ++ "p2" ++ " not found or already deleted", some 0⟩) :=
  c8_idempotent_delete [⟨"p1::chunk_0", "p1", "x"⟩] "p2" (by decide)

/-! ### Admin user management (src/backend/auth/admin_router.py) -/

/-- Modelled from the spec: the `User` ORM record
(`backend/database/models.py` is not in the tree; spec §3 "User" lists a
numeric id, unique username, password hash, optional full name and
department, active flag and admin flag).  Timestamps are omitted: no
admin endpoint reads them. -/
structure UserRec where
  id : Nat
  username : String
  password_hash : String
  full_name : Option String
  department : Option String
  is_active : Bool
  is_admin : Bool
deriving DecidableEq

/-- The `UserUpdate` request schema (src/backend/auth/schemas.py,
lines 53-58): it declares only these three optional fields — in
particular neither `is_active` nor `is_admin`. -/
structure UserUpdate where
  full_name : Option String
  department : Option String
  password : Option String
deriving DecidableEq

/-- `db.query(User).filter_by(id=user_id).first()`. -/
def findUser (db : List UserRec) (user_id : Nat) : Option UserRec :=
  db.find? (fun u => decide (u.id = user_id))

/-- `db.query(User).filter_by(is_admin=True).count()`. -/
def adminCount (db : List UserRec) : Nat :=
  (db.filter (fun u => u.is_admin)).length

/-- `db.delete(user)` on the row found by id. -/
def eraseUser (db : List UserRec) (user_id : Nat) : List UserRec :=
  db.eraseP (fun u => decide (u.id = user_id))

/-- Replace the row found by id. -/
def replaceUser (db : List UserRec) (user_id : Nat) (u' : UserRec) : List UserRec :=
  match db with
  | [] => []
  | v :: t => if v.id = user_id then u' :: t else v :: replaceUser t user_id u'

/-- `delete_user` (admin_router.py, lines 106-134), behind the
`get_admin_user` dependency (403 for non-admins): 404 when the id is
unknown; 400 when the target is an admin and at most one admin exists;
otherwise remove the row and answer with the success message. -/
def deleteUser (db : List UserRec) (admin : UserRec) (user_id : Nat) :
    Except HttpError (List UserRec × String) :=
  if ¬ admin.is_admin then .error ⟨403, "Admin access required"⟩
  else
    match findUser db user_id with
    | none => .error ⟨404, "User not found"⟩
    | some u =>
      if u.is_admin ∧ adminCount db ≤ 1 then
        .error ⟨400, "Cannot delete the last admin user"⟩
      else
        .ok (eraseUser db user_id, "User " ++ u.username ++ " deleted successfully")

/-- `update_user` (admin_router.py, lines 71-103): after the 403/404
guards it copies `full_name` and `department` onto the ORM object, then
reads `user_data.is_active` — an attribute the `UserUpdate` schema does
not declare, so Python raises `AttributeError` before `db.commit()` is
reached; the session (`autocommit=False`, closed in `get_db`'s
`finally`) discards the uncommitted mutations, and FastAPI answers 500.
Every update request therefore fails and the stored rows are unchanged. -/
def updateUser (db : List UserRec) (admin : UserRec) (user_id : Nat)
    (user_data : UserUpdate) : Except HttpError (List UserRec) :=
  if ¬ admin.is_admin then .error ⟨403, "Admin access required"⟩
  else
    match findUser db user_id with
    | none => .error ⟨404, "User not found"⟩
    | some _ =>
      .error ⟨500, "AttributeError: 'UserUpdate' object has no attribute 'is_active'"⟩

/-- `toggle_user_active` (admin_router.py, lines 137-163): 403/404
guards, 400 when the target is the requesting admin's own account,
otherwise flip `is_active`, commit, and answer with the status text and
the new flag. -/
def toggleUserActive (db : List UserRec) (admin : UserRec) (user_id : Nat) :
    Except HttpError (List UserRec × String × Bool) :=
  if ¬ admin.is_admin then .error ⟨403, "Admin access required"⟩
  else
    match findUser db user_id with
    | none => .error ⟨404, "User not found"⟩
    | some u =>
      if u.id = admin.id then .error ⟨400, "Cannot deactivate your own account"⟩
      else
        let u' := { u with is_active := !u.is_active }
        .ok (replaceUser db user_id u',
          "User " ++ u.username ++ " " ++ (if u'.is_active then "activated" else "deactivated"),
          u'.is_active)

lemma adminCount_eraseUser (user_id : Nat) :
    ∀ (db : List UserRec) (u : UserRec), findUser db user_id = some u →
      adminCount (eraseUser db user_id)
        = adminCount db - (if u.is_admin then 1 else 0) := by
  intro db
  induction db with
  | nil => intro u hu; simp [findUser] at hu
  | cons v t ih =>
    intro u hu
    by_cases hv : v.id = user_id
    · have hu' : u = v := by
        unfold findUser at hu
        rw [List.find?_cons_of_pos _ (by simpa using hv)] at hu
        exact (Option.some_injective _ hu).symm
      subst hu'
      unfold eraseUser adminCount
      rw [List.eraseP_cons_of_pos (by simpa using hv), List.filter_cons]
      by_cases ha : u.is_admin
      · rw [if_pos (by simpa using ha), if_pos ha]
        simp
      · rw [if_neg (by simpa using ha), if_neg ha]
        simp
    · have hu' : findUser t user_id = some u := by
        unfold findUser at hu ⊢
        rw [List.find?_cons_of_neg _ (by simpa using hv)] at hu
        exact hu
      have ih' := ih u hu'
      unfold eraseUser adminCount at ih' ⊢
      rw [List.eraseP_cons_of_neg (by simpa using hv), List.filter_cons, List.filter_cons]
      by_cases ha : v.is_admin
      · rw [if_pos ha, if_pos ha]
        simp only [List.length_cons]
        have hle : (if u.is_admin then 1 else 0) ≤ (List.filter (fun w => w.is_admin) t).length := by
          by_cases hua : u.is_admin
          · rw [if_pos hua]
            have : u ∈ List.filter (fun w => w.is_admin) t := by
              refine List.mem_filter.mpr ⟨List.mem_of_find?_eq_some hu', by simpa using hua⟩
            have := List.length_pos.mpr (List.ne_nil_of_mem this)
            omega
          · rw [if_neg hua]; omega
        omega
      · rw [if_neg ha, if_neg ha]
        exact ih'

lemma adminCount_replaceUser (user_id : Nat) :
    ∀ (db : List UserRec) (u' : UserRec),
      (∀ u, findUser db user_id = some u → u'.is_admin = u.is_admin) →
      adminCount (replaceUser db user_id u') = adminCount db := by
  intro db
  induction db with
  | nil => intro u' _; rfl
  | cons v t ih =>
    intro u' hsame
    unfold replaceUser adminCount
    by_cases hv : v.id = user_id
    · rw [if_pos hv]
      have hu := hsame v (by
        unfold findUser
        rw [List.find?_cons_of_pos _ (by simpa using hv)])
      rw [List.filter_cons, List.filter_cons, hu]
      by_cases ha : v.is_admin
      · rw [if_pos ha, if_pos ha]
        simp
      · rw [if_neg ha, if_neg ha]
    · rw [if_neg hv]
      have ih' := ih u' (fun u hu => hsame u (by
        unfold findUser at hu ⊢
        rw [List.find?_cons_of_neg _ (by simpa using hv)]
        exact hu))
      unfold adminCount at ih'
      rw [List.filter_cons, List.filter_cons]
      by_cases ha : v.is_admin
      · rw [if_pos ha, if_pos ha]
        simpa using ih'
      · rw [if_neg ha, if_neg ha]
        exact ih'

/-! ### Claim C4 theorem -/

/-- C4: the admin endpoints never leave zero admin accounts and never
let an admin deactivate themself: deleting a user who is an admin while
at most one admin exists is rejected with "Cannot delete the last admin
user" (and any successful delete preserves a positive admin count); no
update request can ever succeed — the handler reads attributes missing
from the `UserUpdate` schema and dies with an AttributeError before
committing — so in particular no update revokes the last admin's
rights; and the active-flag toggle rejects the requesting admin's own
account with "Cannot deactivate your own account" (and never changes
the admin count). -/
theorem c4_admin_invariants :
    (∀ (db : List UserRec) (admin : UserRec) (uid : Nat) (u : UserRec),
        admin.is_admin = true → findUser db uid = some u → u.is_admin = true →
        adminCount db ≤ 1 →
        deleteUser db admin uid = .error ⟨400, "Cannot delete the last admin user"⟩) ∧
    (∀ (db : List UserRec) (admin : UserRec) (uid : Nat) (upd : UserUpdate)
        (db' : List UserRec), updateUser db admin uid upd ≠ .ok db') ∧
    (∀ (db : List UserRec) (admin : UserRec) (uid : Nat) (u : UserRec),
        admin.is_admin = true → findUser db uid = some u → u.id = admin.id →
        toggleUserActive db admin uid = .error ⟨400, "Cannot deactivate your own account"⟩) ∧
    (∀ (db : List UserRec) (admin : UserRec) (uid : Nat)
        (r : List UserRec × String),
        deleteUser db admin uid = .ok r → 0 < adminCount db → 0 < adminCount r.1) ∧
    (∀ (db : List UserRec) (admin : UserRec) (uid : Nat)
        (r : List UserRec × String × Bool),
        toggleUserActive db admin uid = .ok r → adminCount r.1 = adminCount db) := by
  refine ⟨?_, ?_, ?_, ?_, ?_⟩
  · intro db admin uid u hadm hfind hu hcount
    unfold deleteUser
    rw [if_neg (by simp [hadm]), hfind]
    exact if_pos ⟨hu, hcount⟩
  · intro db admin uid upd db' h
    unfold updateUser at h
    by_cases hadm : ¬ admin.is_admin
    · rw [if_pos hadm] at h
      exact Except.noConfusion h
    · rw [if_neg hadm] at h
      cases hf : findUser db uid with
      | none => rw [hf] at h; exact Except.noConfusion h
      | some u => rw [hf] at h; exact Except.noConfusion h
  · intro db admin uid u hadm hfind hid
    unfold toggleUserActive
    rw [if_neg (by simp [hadm]), hfind]
    exact if_pos hid
  · intro db admin uid r hok hpos
    unfold deleteUser at hok
    by_cases hadm : ¬ admin.is_admin
    · rw [if_pos hadm] at hok
      exact Except.noConfusion hok
    · rw [if_neg hadm] at hok
      cases hf : findUser db uid with
      | none => rw [hf] at hok; exact Except.noConfusion hok
      | some u =>
        rw [hf] at hok
        have hok' : (if u.is_admin ∧ adminCount db ≤ 1 then
            (Except.error ⟨400, "Cannot delete the last admin user"⟩ :
              Except HttpError (List UserRec × String))
          else Except.ok (eraseUser db uid,
              "User " ++ u.username ++ " deleted successfully")) = Except.ok r := hok
        by_cases hguard : u.is_admin ∧ adminCount db ≤ 1
        · rw [if_pos hguard] at hok'
          exact Except.noConfusion hok'
        · rw [if_neg hguard] at hok'
          have hr : (eraseUser db uid, "User " ++ u.username ++ " deleted successfully") = r :=
            Except.ok.inj hok'
          have hcount := adminCount_eraseUser uid db u hf
          rw [← hr]
          by_cases hua : u.is_admin
          · rw [if_pos hua] at hcount
            have : ¬ (adminCount db ≤ 1) := fun hle => hguard ⟨hua, hle⟩
            simp only []
            omega
          · rw [if_neg hua] at hcount
            simp only []
            omega
  · intro db admin uid r hok
    unfold toggleUserActive at hok
    by_cases hadm : ¬ admin.is_admin
    · rw [if_pos hadm] at hok
      exact Except.noConfusion hok
    · rw [if_neg hadm] at hok
      cases hf : findUser db uid with
      | none => rw [hf] at hok; exact Except.noConfusion hok
      | some u =>
        rw [hf] at hok
        have hok' : (if u.id = admin.id then
            (Except.error ⟨400, "Cannot deactivate your own account"⟩ :
              Except HttpError (List UserRec × String × Bool))
          else Except.ok (replaceUser db uid { u with is_active := !u.is_active },
              "User " ++ u.username ++ " "
                ++ (if !u.is_active then "activated" else "deactivated"),
              !u.is_active)) = Except.ok r := hok
        by_cases hid : u.id = admin.id
        · rw [if_pos hid] at hok'
          exact Except.noConfusion hok'
        · rw [if_neg hid] at hok'
          have hr := Except.ok.inj hok'
          rw [← hr]
          exact adminCount_replaceUser uid db _ (fun w hw => by
            rw [hf] at hw
            have : u = w := Option.some.inj hw
            rw [← this])

/-- Example users for the C4 witness. -/
def adminAlice : UserRec := ⟨1, "alice", "h1", none, none, true, true⟩

/-- A non-admin example user. -/
def userBob : UserRec := ⟨2, "bob", "h2", none, none, true, false⟩

/-- `userBob` after deactivation. -/
def userBobOff : UserRec := ⟨2, "bob", "h2", none, none, false, false⟩

/-- C4, witness: the guards and the count-preservation applied to a
one-admin database and a two-user database. -/
theorem c4_witness :
    deleteUser [adminAlice] adminAlice 1
      = .error ⟨400, "Cannot delete the last admin user"⟩ ∧
    updateUser [adminAlice] adminAlice 1 ⟨some "N", none, none⟩ ≠ .ok [adminAlice] ∧
    toggleUserActive [adminAlice] adminAlice 1
      = .error ⟨400, "Cannot deactivate your own account"⟩ ∧
    0 < adminCount [adminAlice] ∧
    adminCount [adminAlice, userBobOff] = adminCount [adminAlice, userBob] :=
  ⟨c4_admin_invariants.1 [adminAlice] adminAlice 1 adminAlice
      (by decide) (by decide) (by decide) (by decide),
   c4_admin_invariants.2.1 [adminAlice] adminAlice 1 ⟨some "N", none, none⟩ [adminAlice],
   c4_admin_invariants.2.2.1 [adminAlice] adminAlice 1 adminAlice
      (by decide) (by decide) (by decide),
   c4_admin_invariants.2.2.2.1 [adminAlice, userBob] adminAlice 2
      ([adminAlice], "User bob deleted successfully") (by decide) (by decide),
   c4_admin_invariants.2.2.2.2 [adminAlice, userBob] adminAlice 2
      ([adminAlice, userBobOff], "User bob deactivated", false) (by decide)⟩

/-! ### Chat service (src/backend/chat/service.py, `ChatService.send_message`) -/

/-- Message role. -/
inductive Role | user | assistant
deriving DecidableEq

/-- A source citation as read back from a stored message: only its
`content` key is ever used (via `source.get('content', '')`). -/
structure SourceDoc where
  content : String
deriving DecidableEq

/-- Modelled from the spec: the `Message` ORM record
(`backend/database/models.py` is absent from src/; spec §3 "Message"
lists role, content text and an optional JSON-serialized source list,
which this model keeps decoded as `Option (List SourceDoc)`). -/
structure StoredMessage where
  role : Role
  content : String
  sources : Option (List SourceDoc)
deriving DecidableEq

/-- `MessageCreate` request schema (src/backend/chat/schemas.py). -/
structure MessageCreate where
  content : String
  use_vllm : Bool
  search_limit : Nat
  document_types : Option (List String)
  disease_categories : Option (List String)
  min_score : ℚ
deriving DecidableEq

/-- Python `s.startswith(pre)` (over the character lists, which the
kernel can evaluate). -/
def pyStartsWith (pre s : String) : Bool :=
  pre.data.isPrefixOf s.data

/-- Python slicing `s[:n]` (by characters). -/
def pyTake (s : String) (n : Nat) : String :=
  String.mk (s.data.take n)

/-- `role_label = "사용자" if msg.role == "user" else "AI 어시스턴트"`. -/
def roleLabel : Role → String
  | .user => "사용자"
  | .assistant => "AI 어시스턴트"

/-- The `문서 {idx}: {content[:300]}...` lines for the first three
sources (`enumerate(sources_data[:3], 1)`). -/
def sourcesLines (idx : Nat) : List SourceDoc → String
  | [] => ""
  | s :: t =>
    "문서 " ++ String.mk (natStr idx) ++ ": " ++ pyTake s.content 300 ++ "...\n"
      ++ sourcesLines (idx + 1) t

/-- The `[참조 문서]` block appended after an assistant message that
carries sources. -/
def sourcesBlock (sources : List SourceDoc) : String :=
  "\n[참조 문서]\n" ++ sourcesLines 1 (sources.take 3)

/-- One message's contribution to the conversation-history context
(service.py lines 145-161).  The stored JSON is taken as decoding
successfully: it was produced by `json.dumps` on the same shape, and the
`except: pass` branch never fires on it. -/
def msgContext (msg : StoredMessage) : String :=
  roleLabel msg.role ++ ": " ++ msg.content ++ "\n"
    ++ (match msg.role, msg.sources with
        | .assistant, some l => if l.isEmpty then "" else sourcesBlock l
        | _, _ => "")
    ++ "\n"

/-- The full conversation transcript built from all stored messages in
chronological order. -/
def buildContext (msgs : List StoredMessage) : String :=
  String.join (msgs.map msgContext)

/-- `full_query`: the current question, with the transcript prepended
when any history exists (lines 186-188 and 213-215). -/
def fullQueryWith (ctx actual : String) : String :=
  if ctx = "" then actual
  else "[이전 대화 내용]\n" ++ ctx ++ "\n[현재 질문]\n" ++ actual

/-- The downstream call `send_message` makes through the RAG proxy. -/
inductive RagCall
  | qa (query : String) (limit : Nat) (useVllm : Bool)
      (documentTypes diseaseCategories : Option (List String)) (minScore : ℚ)
  | direct (query : String) (useVllm : Bool)
  | search (query : String) (limit : Nat)
      (documentTypes diseaseCategories : Option (List String)) (minScore : ℚ)
deriving DecidableEq

/-- What `send_message` persists and calls. -/
structure SendOutcome where
  userMessage : StoredMessage
  assistantMessage : StoredMessage
  call : RagCall
deriving DecidableEq

/-- The `{i}. {content[:200]}...` lines of the search-only branch. -/
def searchResultsLines (idx : Nat) : List SourceDoc → String
  | [] => ""
  | s :: t =>
    String.mk (natStr idx) ++ ". " ++ pyTake s.content 200 ++ "...\n\n"
      ++ searchResultsLines (idx + 1) t

/-- `ChatService.send_message` (service.py lines 115-273) as a pure
function of the request, the stored history, and the answers the RAG
proxy returns on each path (`qaAnswer`/`qaSources` for the `/qa` call,
`directAnswer` for the direct-LLM call, `searchResults` for the
search-only fallback).  The stored user message keeps the original
content; `actual_content` strips the `@` and surrounding whitespace. -/
def sendMessage (msg : MessageCreate) (history : List StoredMessage)
    (qaAnswer : String) (qaSources : List SourceDoc)
    (directAnswer : String) (searchResults : List SourceDoc) : SendOutcome :=
  let conversationContext := buildContext history
  let useRag := pyStartsWith "@" msg.content
  let actualContent :=
    if useRag then String.mk (pyStrip (msg.content.data.drop 1)) else msg.content
  let userMessage : StoredMessage := ⟨.user, msg.content, none⟩
  if useRag ∧ msg.use_vllm then
    let assistantContent :=
      if ¬ qaSources.isEmpty then
        "[RAG 모드 - " ++ String.mk (natStr qaSources.length) ++ "개 문서 참조]\n\n" ++ qaAnswer
      else
        "[RAG 모드 - 관련 문서 없음]\n\n" ++ qaAnswer
    { userMessage := userMessage
      assistantMessage := ⟨.assistant, assistantContent,
        if ¬ qaSources.isEmpty then some qaSources else none⟩
      call := .qa (fullQueryWith conversationContext actualContent) msg.search_limit true
        msg.document_types msg.disease_categories msg.min_score }
  else if ¬ useRag ∧ msg.use_vllm then
    { userMessage := userMessage
      assistantMessage := ⟨.assistant, directAnswer, none⟩
      call := .direct (fullQueryWith conversationContext actualContent) true }
  else
    let assistantContent :=
      if ¬ searchResults.isEmpty then
        "Found the following relevant information:\n\n"
          ++ searchResultsLines 1 (searchResults.take 3)
      else "No relevant documents found."
    { userMessage := userMessage
      assistantMessage := ⟨.assistant, assistantContent,
        if ¬ searchResults.isEmpty then some searchResults else none⟩
      call := .search msg.content msg.search_limit msg.document_types
        msg.disease_categories msg.min_score }

/-! ### Claim C1 theorem -/

/-- C1: with vLLM generation requested, a message starting with `@`
goes to the question-answering proxy with the `@` (and surrounding
whitespace) stripped and the transcript prepended when history exists,
and the stored assistant message is prefixed with
`"[RAG 모드 - N개 문서 참조]"` (N = number of sources) or
`"[RAG 모드 - 관련 문서 없음]"`; a message without `@` goes to the
direct-LLM path and stores no sources; and in both cases the stored
user message carries the submitted content verbatim. -/
theorem c1_send_message :
    ∀ (msg : MessageCreate) (history : List StoredMessage)
      (qaAnswer : String) (qaSources : List SourceDoc)
      (directAnswer : String) (searchResults : List SourceDoc),
      msg.use_vllm = true →
      (sendMessage msg history qaAnswer qaSources directAnswer searchResults).userMessage
        = ⟨Role.user, msg.content, none⟩ ∧
      (pyStartsWith "@" msg.content = true →
        sendMessage msg history qaAnswer qaSources directAnswer searchResults
          = { userMessage := ⟨Role.user, msg.content, none⟩,
              assistantMessage := ⟨Role.assistant,
                (if qaSources.isEmpty then "[RAG 모드 - 관련 문서 없음]\n\n" ++ qaAnswer
                 else "[RAG 모드 - " ++ String.mk (natStr qaSources.length)
                        ++ "개 문서 참조]\n\n" ++ qaAnswer),
                (if qaSources.isEmpty then none else some qaSources)⟩,
              call := .qa
                (fullQueryWith (buildContext history)
                  (String.mk (pyStrip (msg.content.data.drop 1))))
                msg.search_limit true msg.document_types msg.disease_categories
                msg.min_score }) ∧
      (pyStartsWith "@" msg.content = false →
        sendMessage msg history qaAnswer qaSources directAnswer searchResults
          = { userMessage := ⟨Role.user, msg.content, none⟩,
              assistantMessage := ⟨Role.assistant, directAnswer, none⟩,
              call := .direct (fullQueryWith (buildContext history) msg.content) true }) := by
  intro msg history qaAnswer qaSources directAnswer searchResults hv
  refine ⟨?_, ?_, ?_⟩
  · unfold sendMessage
    by_cases hat : pyStartsWith "@" msg.content <;>
      by_cases hq : qaSources.isEmpty <;>
      by_cases hsr : searchResults.isEmpty <;>
      simp [hat, hv, hq, hsr]
  · intro hat
    unfold sendMessage
    by_cases hq : qaSources.isEmpty <;> simp [hat, hv, hq]
  · intro hat
    unfold sendMessage
    simp [hat, hv]

/-- C1, witness: an `@`-prefixed message with one source and empty
history, and a plain message on the direct path. -/
theorem c1_witness :
    sendMessage ⟨"@질문", true, 5, none, none, 0⟩ [] "답" [⟨"doc"⟩] "direct" []
      = { userMessage := ⟨Role.user, "@질문", none⟩,
          assistantMessage := ⟨Role.assistant, "[RAG 모드 - 1개 문서 참조]\n\n답",
            some [⟨"doc"⟩]⟩,
          call := .qa "질문" 5 true none none 0 } ∧
    sendMessage ⟨"hi", true, 5, none, none, 0⟩ [] "답" [] "direct" []
      = { userMessage := ⟨Role.user, "hi", none⟩,
          assistantMessage := ⟨Role.assistant, "direct", none⟩,
          call := .direct "hi" true } := by
  constructor
  · have h := (c1_send_message ⟨"@질문", true, 5, none, none, 0⟩ [] "답" [⟨"doc"⟩]
      "direct" [] rfl).2.1 (by decide)
    rw [h]
    decide
  · have h := (c1_send_message ⟨"hi", true, 5, none, none, 0⟩ [] "답" [] "direct" []
      rfl).2.2 (by decide)
    rw [h]
    decide

/-! ### Thinking-tag cleanup (src/backend/chat/rag_proxy.py,
`RAGProxyService._clean_thinking_tags`, lines 111-202)

The regex substitutions are embedded as scanners with Python `re.sub`
semantics (leftmost match, non-overlapping, continue after the match;
`.*?` takes the nearest closing occurrence, DOTALL; IGNORECASE folds
ASCII case).  All are fuel-indexed structural recursions so that closed
inputs evaluate in the kernel. -/

/-- ASCII lower-casing, the case folding IGNORECASE needs for these
ASCII-only patterns. -/
def lowerChar (c : Char) : Char :=
  if 'A' ≤ c ∧ c ≤ 'Z' then Char.ofNat (c.toNat + 32) else c

/-- Case-insensitive literal prefix test (the pattern is stored in
lowercase). -/
def ciPrefix : List Char → List Char → Bool
  | [], _ => true
  | _ :: _, [] => false
  | p :: ps, c :: cs => (p = lowerChar c) && ciPrefix ps cs

/-- Case-insensitive substring test: models `pat in text.lower()` for a
lowercase ASCII `pat`. -/
def containsCI (pat : List Char) : List Char → Bool
  | [] => pat.isEmpty
  | c :: t => ciPrefix pat (c :: t) || containsCI pat t

/-- `re.sub(literal, '', s, IGNORECASE)`: drop every occurrence,
scanning left to right. -/
def removeAllCI (pat : List Char) : Nat → List Char → List Char
  | 0, s => s
  | _ + 1, [] => []
  | fuel + 1, c :: t =>
    if ciPrefix pat (c :: t) ∧ pat ≠ [] then
      removeAllCI pat fuel ((c :: t).drop pat.length)
    else
      c :: removeAllCI pat fuel t

/-- `removeAllCI` with enough fuel for the whole text. -/
def removeAllCIW (pat s : List Char) : List Char :=
  removeAllCI pat (s.length + 1) s

/-- Nearest case-insensitive occurrence of `pat`, returning the suffix
after it (the non-greedy `.*?pat` search). -/
def findAfterCI (pat : List Char) : List Char → Option (List Char)
  | [] => if pat.isEmpty then some [] else none
  | c :: t =>
    if ciPrefix pat (c :: t) then some ((c :: t).drop pat.length)
    else findAfterCI pat t

/-- `re.sub(A.*?B, '', s, DOTALL | IGNORECASE)` for literal `A`, `B`:
at an `A` occurrence take the nearest `B` after it and drop the whole
span; when no `B` follows, no later position can match either (every
later `A` starts after this one, so its `B` search space is smaller),
and the rest is kept unchanged. -/
def removeSpanCI (a b : List Char) : Nat → List Char → List Char
  | 0, s => s
  | _ + 1, [] => []
  | fuel + 1, c :: t =>
    if ciPrefix a (c :: t) ∧ a ≠ [] then
      match findAfterCI b ((c :: t).drop a.length) with
      | some rest => removeSpanCI a b fuel rest
      | none => c :: t
    else
      c :: removeSpanCI a b fuel t

/-- `removeSpanCI` with enough fuel. -/
def removeSpanCIW (a b s : List Char) : List Char :=
  removeSpanCI a b (s.length + 1) s

/-- Python's `\w` for the scripts occurring in this code base: ASCII
word characters and Hangul syllables.  (Python's `\w` is full Unicode;
no other script reaches these regexes.) -/
def isWordChar (c : Char) : Bool :=
  ('a' ≤ c ∧ c ≤ 'z') || ('A' ≤ c ∧ c ≤ 'Z') || ('0' ≤ c ∧ c ≤ '9')
    || c = '_' || (0xAC00 ≤ c.toNat && c.toNat ≤ 0xD7A3)

/-- Match a lowercase literal case-insensitively, returning the rest. -/
def matchLit (lit : List Char) (s : List Char) : Option (List Char) :=
  if ciPrefix lit s then some (s.drop lit.length) else none

/-- Match `\w+` (greedy; the following pattern characters are never
word characters, so no backtracking is needed). -/
def matchWordPlus : List Char → Option (List Char)
  | [] => none
  | c :: t => if isWordChar c then some (t.dropWhile isWordChar) else none

/-- Match `:think(?:ing)?>` (the greedy optional `ing` first). -/
def matchColonThinkClose (s : List Char) : Option (List Char) :=
  (matchLit ":think".data s).bind (fun r =>
    match matchLit "ing>".data r with
    | some r2 => some r2
    | none => matchLit ">".data r)

/-- Match `<\w+:think(?:ing)?>`. -/
def xmlThinkOpen (s : List Char) : Option (List Char) :=
  (matchLit "<".data s).bind (fun r => (matchWordPlus r).bind matchColonThinkClose)

/-- Match `</\w+:think(?:ing)?>`. -/
def xmlThinkClose (s : List Char) : Option (List Char) :=
  (matchLit "</".data s).bind (fun r => (matchWordPlus r).bind matchColonThinkClose)

/-- Match `think(?:ing)?>` after a fixed head. -/
def matchThinkTail (r : List Char) : Option (List Char) :=
  (matchLit "think".data r).bind (fun r2 =>
    match matchLit "ing>".data r2 with
    | some r3 => some r3
    | none => matchLit ">".data r2)

/-- Match `<think(?:ing)?>`. -/
def plainThinkOpen (s : List Char) : Option (List Char) :=
  (matchLit "<".data s).bind matchThinkTail

/-- Match `</think(?:ing)?>`. -/
def plainThinkClose (s : List Char) : Option (List Char) :=
  (matchLit "</".data s).bind matchThinkTail

/-- Match `</?\w+:think(?:ing)?>` (`/` is not a word character, so the
greedy `/?` never needs backtracking). -/
def anyColonThinkTag (s : List Char) : Option (List Char) :=
  (matchLit "<".data s).bind (fun r =>
    let r1 := match matchLit "/".data r with | some r' => r' | none => r
    (matchWordPlus r1).bind matchColonThinkClose)

/-- Match `</?think(?:ing)?>`. -/
def anyPlainThinkTag (s : List Char) : Option (List Char) :=
  (matchLit "<".data s).bind (fun r =>
    let r1 := match matchLit "/".data r with | some r' => r' | none => r
    matchThinkTail r1)

/-- Match `/seed:?(?:think|thinking)`: the ordered alternation always
succeeds on its first branch, consuming only `think`. -/
def seedThinkTag (s : List Char) : Option (List Char) :=
  (matchLit "/seed".data s).bind (fun r =>
    let r1 := match matchLit ":".data r with | some r' => r' | none => r
    matchLit "think".data r1)

/-- `re.sub(pat, '', s)` for a matcher that consumes at least one
character. -/
def removeAllP (m : List Char → Option (List Char)) : Nat → List Char → List Char
  | 0, s => s
  | _ + 1, [] => []
  | fuel + 1, c :: t =>
    match m (c :: t) with
    | some rest => removeAllP m fuel rest
    | none => c :: removeAllP m fuel t

/-- `removeAllP` with enough fuel. -/
def removeAllPW (m : List Char → Option (List Char)) (s : List Char) : List Char :=
  removeAllP m (s.length + 1) s

/-- Nearest match of `m` at or after the head, returning the suffix
after it. -/
def findAfterP (m : List Char → Option (List Char)) : List Char → Option (List Char)
  | [] => m []
  | c :: t =>
    match m (c :: t) with
    | some r => some r
    | none => findAfterP m t

/-- `re.sub(A.*?B, '', s)` for tag matchers.  The opening tags matched
by `mA` contain no second `<`, so a failed closing search cannot
succeed from any later opening position, and the rest is kept. -/
def removeSpanP (mA mB : List Char → Option (List Char)) : Nat → List Char → List Char
  | 0, s => s
  | _ + 1, [] => []
  | fuel + 1, c :: t =>
    match mA (c :: t) with
    | some restA =>
      match findAfterP mB restA with
      | some rest => removeSpanP mA mB fuel rest
      | none => c :: t
    | none => c :: removeSpanP mA mB fuel t

/-- `removeSpanP` with enough fuel. -/
def removeSpanPW (mA mB : List Char → Option (List Char)) (s : List Char) : List Char :=
  removeSpanP mA mB (s.length + 1) s

/-- Index (0-based) of the last occurrence of `ch`. -/
def lastIdxOf (ch : Char) (l : List Char) : Option Nat :=
  (List.range l.length).foldl
    (fun best i => if l.get? i = some ch then some i else best) none

/-- `re.sub(r'\n\s*\n+', '\n\n', s)`: a newline whose following
whitespace run holds another newline matches up to the last newline of
the run and is replaced by exactly two newlines. -/
def nlNorm : Nat → List Char → List Char
  | 0, s => s
  | _ + 1, [] => []
  | fuel + 1, c :: t =>
    if c = '\n' then
      match lastIdxOf '\n' (t.takeWhile pyIsWs) with
      | some k => '\n' :: '\n' :: nlNorm fuel (t.drop (k + 1))
      | none => c :: nlNorm fuel t
    else c :: nlNorm fuel t

/-- `nlNorm` with enough fuel. -/
def nlNormW (s : List Char) : List Char :=
  nlNorm (s.length + 1) s

/-- Python `s.rfind(pat)`: highest start index of an occurrence,
`none` for Python's `-1`. -/
def pyRfindGo (pat : List Char) : Nat → Option Nat → List Char → Option Nat
  | _, best, [] => best
  | i, best, c :: t =>
    pyRfindGo pat (i + 1) (if pat.isPrefixOf (c :: t) then some i else best) t

/-- Python `s.rfind(pat)` for a non-empty `pat`. -/
def pyRfind (pat s : List Char) : Option Nat :=
  pyRfindGo pat 0 none s

/-- The worker of the final duplicate-paragraph loop: `prev_line`
holds the last kept paragraph. -/
def dedupGo (prev : List Char) : List (List Char) → List (List Char)
  | [] => []
  | l :: t => if l = prev then dedupGo prev t else l :: dedupGo l t

/-- Lines 190-200: keep each paragraph unless it equals its immediate
predecessor (`prev_line` starts as `None`, which differs from every
string, so the first paragraph is always kept). -/
def dedupParagraphs : List (List Char) → List (List Char)
  | [] => []
  | l :: t => l :: dedupGo l t

/-- The closing tag `"</think>"`. -/
def thinkClose : List Char := "</think>".data

/-- Lines 115-126: when `'</think>'` occurs and the split has exactly
two parts, keep the stripped trailing part; otherwise the text is kept
as is. -/
def afterThinkSplit (text : List Char) : List Char :=
  if containsSub thinkClose text then
    match pySplitOnSub thinkClose text with
    | [_, b] => pyStrip b
    | _ => text
  else text

/-- Lines 161-175: the tag-dialect detection, computed from the ORIGINAL
text (`'/seed' in text.lower()`, `'thinking' in text.lower()` together
with an angle bracket anywhere, `'[thinking]' in text.lower()`, or
`'<:think>' in text.lower()`). -/
def tagsFoundIn (text : List Char) : Bool :=
  containsCI "/seed".data text
    || (containsCI "thinking".data text && (text.contains '>' || text.contains '<'))
    || containsCI "[thinking]".data text
    || containsCI "<:think>".data text

/-- Lines 177-184: when no tag dialect was detected and an English
reasoning phrase occurs, keep only the stripped text after the last
`"\n\n"` — but only when that trailing part contains the LITERAL
three-character substring `"가-힣"` (the source tests
`'가-힣' in cleaned[korean_start:]`, the string `"가-힣"` itself rather
than the Hangul character range the comment intends). -/
def englishTruncate (tagsFound : Bool) (cleaned : List Char) : List Char :=
  if tagsFound then cleaned
  else if containsSub "Got it".data cleaned || containsSub "Let me".data cleaned
      || containsSub "I need to".data cleaned then
    match pyRfind "\n\n".data cleaned with
    | some k =>
      if 0 < k ∧ containsSub "가-힣".data (cleaned.drop k) then pyStrip (cleaned.drop k)
      else cleaned
    | none => cleaned
  else cleaned

/-- The pipeline after the `</think>` split, given the tag-detection
flag (the only information the original text contributes from here on);
lines 128-202 in order, ending with whitespace normalisation, strip,
and the duplicate-paragraph removal. -/
def cleanAfterSplit (cleaned0 : List Char) (tagsFound : Bool) : List Char :=
  let c1 := removeAllCIW "<:think>".data cleaned0
  let c2 := removeAllCIW "</:think>".data c1
  let c3 := removeSpanCIW "/seed:thinking".data "/seed".data c2
  let c4 := removeSpanCIW "/seed:think".data "/seed".data c3
  let c5 := removeSpanCIW "<seed:thinking>".data "</seed:thinking>".data c4
  let c6 := removeSpanCIW "<seed:think>".data "</seed:think>".data c5
  let c7 := removeSpanCIW "<|thinking|>".data "<|/thinking|>".data c6
  let c8 := removeSpanCIW "<|think|>".data "<|/think|>".data c7
  let c9 := removeSpanCIW "[thinking]".data "[/thinking]".data c8
  let c10 := removeSpanCIW "[think]".data "[/think]".data c9
  let c11 := removeSpanPW xmlThinkOpen xmlThinkClose c10
  let c12 := removeSpanPW plainThinkOpen plainThinkClose c11
  let c13 := removeAllPW anyColonThinkTag c12
  let c14 := removeAllPW anyPlainThinkTag c13
  let c15 := removeAllPW seedThinkTag c14
  let c16 := removeAllCIW "/seed".data c15
  let c17 := englishTruncate tagsFound c16
  let c18 := nlNormW c17
  let c19 := pyStrip c18
  let lines := pySplitOnSub "\n\n".data c19
  if 2 ≤ lines.length then joinSep "\n\n".data (dedupParagraphs lines) else c19

/-- `RAGProxyService._clean_thinking_tags`. -/
def cleanThinkingTags (text : List Char) : List Char :=
  cleanAfterSplit (afterThinkSplit text) (tagsFoundIn text)

lemma thinkClose_ne_nil : thinkClose ≠ [] := by decide

lemma afterThinkSplit_of_split {t a b : List Char}
    (h : pySplitOnSub thinkClose t = [a, b]) :
    afterThinkSplit t = pyStrip b := by
  unfold afterThinkSplit
  by_cases hc : containsSub thinkClose t
  · rw [if_pos hc, h]
  · exfalso
    rw [pySplitOnSub_eq_splitGo] at h
    rw [splitGo_no_occ thinkClose_ne_nil t [] (by simpa using hc)] at h
    simp at h

lemma destutter_ne_eq_dedupGo :
    ∀ (l : List (List Char)) (prev : List Char),
      List.destutter' (· ≠ ·) prev l = prev :: dedupGo prev l := by
  intro l
  induction l with
  | nil => intro prev; rw [List.destutter'_nil]; rfl
  | cons a t ih =>
    intro prev
    by_cases ha : prev = a
    · rw [List.destutter'_cons_neg t (show ¬ (prev ≠ a) from fun hne => hne ha)]
      rw [ih prev]
      simp only [dedupGo]
      rw [if_pos ha.symm]
    · rw [List.destutter'_cons_pos t (show prev ≠ a from ha)]
      rw [ih a]
      simp only [dedupGo]
      rw [if_neg (fun he => ha he.symm)]

lemma dedupParagraphs_eq_destutter (l : List (List Char)) :
    dedupParagraphs l = l.destutter (· ≠ ·) := by
  cases l with
  | nil => rfl
  | cons a t =>
    rw [List.destutter_cons', destutter_ne_eq_dedupGo]
    rfl

/-! ### Claim C5 and C6 theorems -/

/-- C5, counterexample: two texts whose `</think>` split yields the
same trailing part but different cleanup outputs — the head still
influences the result through the tag-dialect detection, which reads
the whole original text; so the output is not derived solely from the
trailing part. -/
theorem c5_counterexample :
    pySplitOnSub thinkClose "blah</think>\n\nGot it. Let me answer.\n\n가-힣 한국어".data
      = ["blah".data, "\n\nGot it. Let me answer.\n\n가-힣 한국어".data] ∧
    pySplitOnSub thinkClose "thinking></think>\n\nGot it. Let me answer.\n\n가-힣 한국어".data
      = ["thinking>".data, "\n\nGot it. Let me answer.\n\n가-힣 한국어".data] ∧
    cleanThinkingTags "blah</think>\n\nGot it. Let me answer.\n\n가-힣 한국어".data
      ≠ cleanThinkingTags "thinking></think>\n\nGot it. Let me answer.\n\n가-힣 한국어".data := by
  refine ⟨by decide, by decide, by decide⟩

/-- C5, amended: when the `</think>` split yields exactly two parts,
everything before and including the tag is discarded except for its
influence on the tag-dialect detection flag (computed from the full
original text): texts with the same trailing part and the same flag
clean to the same output; the example reduces to "Final answer"; and
the final step drops exactly the paragraphs equal to their immediate
predecessor (it is adjacent-deduplication, whose output never has two
equal consecutive paragraphs). -/
theorem c5_amended :
    (∀ (t1 t2 a1 a2 b : List Char),
        pySplitOnSub thinkClose t1 = [a1, b] →
        pySplitOnSub thinkClose t2 = [a2, b] →
        tagsFoundIn t1 = tagsFoundIn t2 →
        cleanThinkingTags t1 = cleanThinkingTags t2) ∧
    cleanThinkingTags "some reasoning</think>\n\nFinal answer".data = "Final answer".data ∧
    (∀ l : List (List Char), dedupParagraphs l = l.destutter (· ≠ ·)) ∧
    (∀ l : List (List Char), List.Chain' (· ≠ ·) (dedupParagraphs l)) := by
  refine ⟨?_, by decide, dedupParagraphs_eq_destutter, ?_⟩
  · intro t1 t2 a1 a2 b h1 h2 htags
    unfold cleanThinkingTags
    rw [afterThinkSplit_of_split h1, afterThinkSplit_of_split h2, htags]
  · intro l
    rw [dedupParagraphs_eq_destutter]
    exact List.destutter_is_chain' _ _

/-- C5, witness: two concrete texts with the same trailing part and
tag-flag clean identically. -/
theorem c5_witness :
    cleanThinkingTags "x</think>\n\nok".data = cleanThinkingTags "yy</think>\n\nok".data :=
  c5_amended.1 "x</think>\n\nok".data "yy</think>\n\nok".data "x".data "yy".data
    "\n\nok".data (by decide) (by decide) (by decide)

/-- C6: the claim (and the spec) say the English-reasoning truncation
keeps the trailing block when it contains Korean characters, which
matches the code's own comment "Find the last Korean paragraph"; the
code instead tests `'가-힣' in cleaned[korean_start:]` — membership of
the LITERAL three-character string `"가-힣"`, not the Hangul range.  On
`"Got it. Let me think.\n\n안녕하세요"` (no tag dialect, English
reasoning phrase present, all-Hangul trailing block) the cleanup
therefore leaves the text untruncated instead of keeping
`"안녕하세요"`. -/
theorem c6_code_bug :
    tagsFoundIn "Got it. Let me think.\n\n안녕하세요".data = false ∧
    containsSub "Got it".data "Got it. Let me think.\n\n안녕하세요".data = true ∧
    ("안녕하세요".data.all (fun c => decide (0xAC00 ≤ c.toNat ∧ c.toNat ≤ 0xD7A3))) = true ∧
    cleanThinkingTags "Got it. Let me think.\n\n안녕하세요".data
      = "Got it. Let me think.\n\n안녕하세요".data ∧
    cleanThinkingTags "Got it. Let me think.\n\n안녕하세요".data ≠ "안녕하세요".data := by
  refine ⟨by decide, by decide, by decide, by decide, by decide⟩

end GaitRag
